import Mathlib

/-!
# FileMemPool (snort3, `src/file_api/file_mempool.cc`)

A shallow embedding of the fixed-capacity file memory pool and a verification
of its alloc / free / release protocol.

* Addresses are natural numbers; `0` is `nullptr`.
* The heap is a byte map `Nat → Nat`; a byte read is taken `% 256`.
* `MagicType` accesses (`*(MagicType*)p`) are 8-byte little-endian loads/stores.
* The circular buffer (`cbuffer_*`) lives outside `file_mempool.cc`; it is modelled
  from the bounded-FIFO contract of the specification.
* The pool mutex serialises every operation, so each operation is one atomic
  state transition.
-/

namespace FileMemPool

/-! ## Return codes -/

/-- Modelled from the spec: the status codes of the pool and the queue
(`FILE_MEM_SUCCESS` / `FILE_MEM_FAIL`, `CB_SUCCESS` / `CB_FAIL`) are declared in
headers that are not available; the spec only distinguishes ok from fail. -/
inductive RetCode where
  | success
  | fail
  deriving DecidableEq, Repr

/-- Pool status code for ok. -/
abbrev FILE_MEM_SUCCESS : RetCode := RetCode.success
/-- Pool status code for fail. -/
abbrev FILE_MEM_FAIL : RetCode := RetCode.fail
/-- Queue status code for ok. -/
abbrev CB_SUCCESS : RetCode := RetCode.success
/-- Queue status code for full / empty / missing queue. -/
abbrev CB_FAIL : RetCode := RetCode.fail

/-! ## Memory -/

/-- The sentinel written at the start of a returned slot (`#define FREE_MAGIC`). -/
def FREE_MAGIC : Nat := 0x2525252525252525

/-- The null pointer. -/
def nullptr : Nat := 0

/-- Byte-addressed memory. -/
abbrev Heap := Nat → Nat

/-- Load of a `MagicType` (`uint64_t`, little endian) at address `p`. -/
def read64 (h : Heap) (p : Nat) : Nat :=
  h p % 256
  + (h (p + 1) % 256) * 256 ^ 1
  + (h (p + 2) % 256) * 256 ^ 2
  + (h (p + 3) % 256) * 256 ^ 3
  + (h (p + 4) % 256) * 256 ^ 4
  + (h (p + 5) % 256) * 256 ^ 5
  + (h (p + 6) % 256) * 256 ^ 6
  + (h (p + 7) % 256) * 256 ^ 7

/-- Store of a `MagicType` (`uint64_t`, little endian) at address `p`. -/
def write64 (h : Heap) (p v : Nat) : Heap :=
  fun a => if p ≤ a ∧ a < p + 8 then (v / 256 ^ (a - p)) % 256 else h a

/-- A single byte store by a caller of the pool. -/
def poke (h : Heap) (a v : Nat) : Heap :=
  fun b => if b = a then v % 256 else h b

/-- Zeroing of `n` bytes starting at `base` (the effect of `snort_calloc`). -/
def zeroFill (h : Heap) (base n : Nat) : Heap :=
  fun a => if base ≤ a ∧ a < base + n then 0 else h a

/-! ## Bounded FIFO queue -/

/-- Modelled from the spec: the circular buffer behind `cbuffer_*` is missing from
the sources; by the spec it is a bounded FIFO of slot references with a fixed
capacity. `elems` lists the queued references, oldest first. -/
structure CircularBuffer where
  size : Nat
  elems : List Nat
  deriving DecidableEq, Repr

/-- Modelled from the spec: `cbuffer_init` creates an empty queue of the given
capacity; the flag says whether the queue could be obtained. -/
def cbuffer_init (size : Nat) (ok : Bool) : Option CircularBuffer :=
  if ok then some { size := size, elems := [] } else none

/-- Modelled from the spec: `push(x) → ok | full`; a missing queue fails. -/
def cbuffer_write (cb : Option CircularBuffer) (elem : Nat) :
    RetCode × Option CircularBuffer :=
  match cb with
  | none => (CB_FAIL, none)
  | some c =>
    if c.elems.length < c.size then
      (CB_SUCCESS, some { c with elems := c.elems ++ [elem] })
    else (CB_FAIL, some c)

/-- Modelled from the spec: `pop() → Some(x) | empty`; a missing queue fails.
The middle component is the value stored through the out-parameter, if any. -/
def cbuffer_read (cb : Option CircularBuffer) :
    RetCode × Option Nat × Option CircularBuffer :=
  match cb with
  | none => (CB_FAIL, none, none)
  | some c =>
    match c.elems with
    | [] => (CB_FAIL, none, some c)
    | x :: rest => (CB_SUCCESS, some x, some { c with elems := rest })

/-- Modelled from the spec: `used() → count`; a missing queue holds nothing. -/
def cbuffer_used (cb : Option CircularBuffer) : Nat :=
  match cb with
  | none => 0
  | some c => c.elems.length

/-- Modelled from the spec: `capacity() → N`. -/
def cbuffer_size (cb : Option CircularBuffer) : Nat :=
  match cb with
  | none => 0
  | some c => c.size

/-- The references held by a (possibly missing) queue, oldest first. -/
def cbuffer_elems (cb : Option CircularBuffer) : List Nat :=
  match cb with
  | none => []
  | some c => c.elems

/-! ## The pool -/

/-- The members of `class FileMemPool` together with the heap they point into. -/
structure Pool where
  datapool : Nat
  total : Nat
  free_list : Option CircularBuffer
  released_list : Option CircularBuffer
  obj_size : Nat
  heap : Heap

/-- Modelled from the spec: the class declaration (and with it the initial value of
the members) is missing; by the spec a pool whose constructor returns early has no
slab, no queues and all counters zero. -/
def degenerate (h : Heap) : Pool :=
  { datapool := nullptr, total := 0, free_list := none, released_list := none,
    obj_size := 0, heap := h }

/-- What the constructor obtains from its environment: the address returned by
`snort_calloc` and whether each `cbuffer_init` succeeds. -/
structure Env where
  slab : Nat
  free_ok : Bool
  released_ok : Bool

/-- Source `FileMemPool::free_pools` (lines 75-85): the slab is released and
`datapool` is reset to null. Both queue pointers are passed to `cbuffer_free` by
value, so the members `free_list` and `released_list` keep their value: they are
left pointing at the released queues. The pool state does not record which storage
is allocated; the queue values kept in the members are what the queues held when
they were released, and a later read through them is a read of released storage
in the source. -/
def free_pools (p : Pool) : Pool :=
  { p with datapool := nullptr }

/-- The body of the constructor loop `for (i=0; i<num_objects; i++)`; `i` is an
`unsigned int` (32 bit), `total` a `uint64_t`. `none` means the fuel ran out. -/
def ctorLoop (num_objects : Nat) : Nat → Nat → Pool → Option Pool
  | 0, _, _ => none
  | fuel + 1, i, p =>
    if i < num_objects then
      let data := (p.datapool + (i * p.obj_size) % 2 ^ 64) % 2 ^ 64
      match cbuffer_write p.free_list data with
      | (RetCode.fail, fl) => some (free_pools { p with free_list := fl })
      | (RetCode.success, fl) =>
        ctorLoop num_objects fuel ((i + 1) % 2 ^ 32)
          { p with
            free_list := fl
            heap := write64 p.heap data FREE_MAGIC
            total := (p.total + 1) % 2 ^ 64 }
    else some p

/-- Source `FileMemPool::FileMemPool(uint64_t num_objects, size_t o_size)`, started
on heap `h`. The loop is given `num_objects + 1` rounds of fuel. -/
def ctor (env : Env) (h : Heap) (num_objects o_size : Nat) : Option Pool :=
  if num_objects < 1 ∨ o_size < 1 then some (degenerate h)
  else
    let p0 : Pool :=
      { degenerate h with
        obj_size := o_size
        datapool := env.slab
        heap := zeroFill h env.slab (num_objects * o_size) }
    let p1 : Pool := { p0 with free_list := cbuffer_init num_objects env.free_ok }
    if p1.free_list.isNone then some (free_pools p1)
    else
      let p2 : Pool :=
        { p1 with released_list := cbuffer_init num_objects env.released_ok }
      if p2.released_list.isNone then some (free_pools p2)
      else ctorLoop num_objects (num_objects + 1) 0 { p2 with total := 0 }

/-- Source `FileMemPool::m_alloc`: the returned pointer and the new pool state. -/
def m_alloc (p : Pool) : Nat × Pool :=
  match cbuffer_read p.free_list with
  | (RetCode.success, b, fl) => (b.getD nullptr, { p with free_list := fl })
  | (RetCode.fail, _, fl) =>
    match cbuffer_read p.released_list with
    | (RetCode.success, b, rl) =>
      (b.getD nullptr, { p with free_list := fl, released_list := rl })
    | (RetCode.fail, _, rl) =>
      (nullptr, { p with free_list := fl, released_list := rl })

/-- Whether `m_alloc` reports "Allocation errors!" for the pointer it returns. -/
def allocLogsCorruption (h : Heap) (b : Nat) : Bool :=
  decide (read64 h b ≠ FREE_MAGIC)

/-- Source `FileMemPool::remove(CircularBuffer* cb, void* obj)`: the status, the
new queue and the new heap. -/
def remove (cb : Option CircularBuffer) (h : Heap) (obj : Nat) :
    RetCode × Option CircularBuffer × Heap :=
  if obj = nullptr then (FILE_MEM_FAIL, cb, h)
  else
    match cbuffer_write cb obj with
    | (RetCode.fail, cb1) => (FILE_MEM_FAIL, cb1, h)
    | (RetCode.success, cb1) =>
      if read64 h obj = FREE_MAGIC then (FILE_MEM_FAIL, cb1, h)
      else (FILE_MEM_SUCCESS, cb1, write64 h obj FREE_MAGIC)

/-- Source `FileMemPool::m_free`. -/
def m_free (p : Pool) (obj : Nat) : RetCode × Pool :=
  let r := remove p.free_list p.heap obj
  (r.1, { p with free_list := r.2.1, heap := r.2.2 })

/-- Source `FileMemPool::m_release`. -/
def m_release (p : Pool) (obj : Nat) : RetCode × Pool :=
  let r := remove p.released_list p.heap obj
  (r.1, { p with released_list := r.2.1, heap := r.2.2 })

/-- Source `FileMemPool::freed`. -/
def freed (p : Pool) : Nat := cbuffer_used p.free_list

/-- Source `FileMemPool::released`. -/
def released (p : Pool) : Nat := cbuffer_used p.released_list

/-- Source `FileMemPool::allocated`, in `uint64_t` arithmetic. -/
def allocated (p : Pool) : Nat :=
  let total_freed := (released p + freed p) % 2 ^ 64
  (p.total + 2 ^ 64 - total_freed) % 2 ^ 64

/-- Source `FileMemPool::verify`: which of its three error messages are printed
(free list, release list, mempool size). -/
def verify (p : Pool) : Bool × Bool × Bool :=
  let free_size := cbuffer_used p.free_list
  let release_size := cbuffer_used p.released_list
  (decide (free_size > cbuffer_size p.free_list),
   decide (release_size > cbuffer_size p.released_list),
   decide ((free_size + release_size) % 2 ^ 64 > p.total))

/-! ## Call sequences -/

/-- One event of a run: a pool call, or a byte store by a caller. -/
inductive Op where
  | alloc
  | free (obj : Nat)
  | release (obj : Nat)
  | write (addr val : Nat)
  deriving DecidableEq, Repr

/-- What an event returns to the caller. -/
inductive Res where
  | ptr (b : Nat)
  | code (c : RetCode)
  | unit
  deriving DecidableEq, Repr

/-- One event applied to a pool. -/
def step (p : Pool) : Op → Res × Pool
  | Op.alloc => let r := m_alloc p; (Res.ptr r.1, r.2)
  | Op.free obj => let r := m_free p obj; (Res.code r.1, r.2)
  | Op.release obj => let r := m_release p obj; (Res.code r.1, r.2)
  | Op.write a v => (Res.unit, { p with heap := poke p.heap a v })

/-- A sequence of events applied in order: the results and the final pool. -/
def run (p : Pool) : List Op → List Res × Pool
  | [] => ([], p)
  | op :: ops =>
    let r := step p op
    let rest := run r.2 ops
    (r.1 :: rest.1, rest.2)

/-- The pool after `k` consecutive `m_alloc` calls. -/
def allocN : Nat → Pool → Pool
  | 0, p => p
  | k + 1, p => allocN k (m_alloc p).2

/-- The environment used in the concrete scenarios: slab at address 4096, both
queues obtained. -/
def env0 : Env := { slab := 4096, free_ok := true, released_ok := true }

/-- The heap used in the concrete scenarios. -/
def heap0 : Heap := fun _ => 0xAA

/-- The pool built by the constructor in the concrete scenarios; the default is
never used, as the constructor always returns (`ctor_eq_mkPool`). -/
def mkPool (n s : Nat) : Pool := (ctor env0 heap0 n s).getD (degenerate heap0)

/-! ## Properties of runs and states -/

/-- No aliasing along a run: whenever two `alloc` calls (positions `i < j`) return
the same non-null slot, some `free` or `release` call on that slot lies strictly
between them. `ops` are the events and `res` their results. -/
def NoAliasing (ops : List Op) (res : List Res) : Prop :=
  ∀ i j b : Nat, i < j → ops[i]? = some Op.alloc → ops[j]? = some Op.alloc →
    res[i]? = some (Res.ptr b) → res[j]? = some (Res.ptr b) → b ≠ nullptr →
    ∃ k : Nat, i < k ∧ k < j ∧
      (ops[k]? = some (Op.free b) ∨ ops[k]? = some (Op.release b))

/-- The magic invariant: every reference stored in the Free or the Released queue
has `FREE_MAGIC` in its first 8 bytes. -/
def MagicInvariant (p : Pool) : Prop :=
  ∀ x ∈ cbuffer_elems p.free_list ++ cbuffer_elems p.released_list,
    read64 p.heap x = FREE_MAGIC

/-- The counter bound checked last by `verify`: `used(Free) + used(Released) ≤ total`. -/
def CounterBound (p : Pool) : Prop :=
  freed p + released p ≤ p.total

/-- Conservation of slots as an equation between natural numbers: the unbounded sum
of the values the three counters return equals `total`. -/
def Conservation (p : Pool) : Prop :=
  allocated p + freed p + released p = p.total

/-- The pool right after an `alloc`, once the caller's stores into the slot it was
handed have turned the heap into `h2`. -/
def handedOut (p : Pool) (h2 : Heap) : Pool :=
  { (m_alloc p).2 with heap := h2 }

/-- The heap after the constructor has stamped `FREE_MAGIC` on the `n` slots
`i, i+1, …, i+n-1` of the slab at `base` with stride `S`, in this order. -/
def stamped (base S : Nat) : Heap → Nat → Nat → Heap
  | h, _, 0 => h
  | h, i, n + 1 => stamped base S (write64 h (base + i * S) FREE_MAGIC) (i + 1) n

/-- No queue of the pool holds a null reference. -/
def NoNull (p : Pool) : Prop :=
  ∀ x ∈ cbuffer_elems p.free_list ++ cbuffer_elems p.released_list, x ≠ nullptr

/-- The pool with its Free and its Released queue exchanged. -/
def swapQueues (p : Pool) : Pool :=
  { p with free_list := p.released_list, released_list := p.free_list }

/-- The check-then-push variant of `remove` that the spec allows: null check, then
magic check, then push; on a successful push the magic is stamped. It is written
from the spec's words, for comparison with the source's `remove`. -/
def remove_check_then_push (cb : Option CircularBuffer) (h : Heap) (obj : Nat) :
    RetCode × Option CircularBuffer × Heap :=
  if obj = nullptr then (FILE_MEM_FAIL, cb, h)
  else if read64 h obj = FREE_MAGIC then (FILE_MEM_FAIL, cb, h)
  else
    match cbuffer_write cb obj with
    | (RetCode.fail, cb1) => (FILE_MEM_FAIL, cb1, h)
    | (RetCode.success, cb1) => (FILE_MEM_SUCCESS, cb1, write64 h obj FREE_MAGIC)

/-- Every `alloc` of a run returned null and every `free` / `release` returned
fail. `ops` are the events and `res` their results. -/
def AllRefused : List Op → List Res → Prop
  | [], [] => True
  | Op.alloc :: ops, r :: rs => r = Res.ptr nullptr ∧ AllRefused ops rs
  | Op.free _ :: ops, r :: rs => r = Res.code FILE_MEM_FAIL ∧ AllRefused ops rs
  | Op.release _ :: ops, r :: rs => r = Res.code FILE_MEM_FAIL ∧ AllRefused ops rs
  | Op.write _ _ :: ops, _ :: rs => AllRefused ops rs
  | _, _ => False

/-- The slot references of a pool: `datapool + i·obj_size` for `i < total`. -/
def slotRefs (p : Pool) : List Nat :=
  (List.range p.total).map (fun i => p.datapool + i * p.obj_size)

/-- The slots that are in use: the slot references that are in neither queue. -/
def inUseSlots (p : Pool) : List Nat :=
  (slotRefs p).filter (fun x =>
    decide (x ∉ cbuffer_elems p.free_list ∧ x ∉ cbuffer_elems p.released_list))

/-- Invariants 1 to 5 of the spec's data model for a pool of capacity `N` (both
queues of capacity exactly `N`, `total = N`), in the order of the spec. -/
def DataModelInv (p : Pool) (N : Nat) : Prop :=
  (p.total = N ∧ cbuffer_size p.free_list = N ∧ cbuffer_size p.released_list = N)
  ∧ freed p + released p + (inUseSlots p).length = p.total
  ∧ (∀ x ∈ cbuffer_elems p.free_list ++ cbuffer_elems p.released_list, x ∈ slotRefs p)
  ∧ (∀ x ∈ cbuffer_elems p.free_list, x ∉ cbuffer_elems p.released_list)
  ∧ MagicInvariant p
  ∧ (freed p ≤ N ∧ released p ≤ N)

/-- The slots held by callers after one event: an `alloc` that returns a slot adds
it, a `free` or `release` hands its slot back. -/
def heldAfterStep (p : Pool) (held : List Nat) : Op → List Nat
  | Op.alloc => if (m_alloc p).1 = nullptr then held else (m_alloc p).1 :: held
  | Op.free x => held.erase x
  | Op.release x => held.erase x
  | Op.write _ _ => held

/-- The slots held by callers after a sequence of events. -/
def heldAfter (p : Pool) (held : List Nat) : List Op → List Nat
  | [] => held
  | op :: ops => heldAfter (step p op).2 (heldAfterStep p held op) ops

/-- What a disciplined client may do next: `free` / `release` only a slot it holds
and whose first 8 bytes are not `FREE_MAGIC`; `alloc` and stores are always
allowed. -/
def OpAllowed (p : Pool) (held : List Nat) : Op → Prop
  | Op.free x => x ∈ held ∧ read64 p.heap x ≠ FREE_MAGIC
  | Op.release x => x ∈ held ∧ read64 p.heap x ≠ FREE_MAGIC
  | _ => True

/-- A sequence of events of disciplined clients, started on pool `p` with the slots
`held` handed out. -/
def Disciplined (p : Pool) (held : List Nat) : List Op → Prop
  | [] => True
  | op :: ops =>
    OpAllowed p held op ∧ Disciplined (step p op).2 (heldAfterStep p held op) ops

/-- Every `free` and `release` of a run returned ok. -/
def AllReturnsOk : List Op → List Res → Prop
  | [], [] => True
  | Op.free _ :: ops, r :: rs => r = Res.code FILE_MEM_SUCCESS ∧ AllReturnsOk ops rs
  | Op.release _ :: ops, r :: rs => r = Res.code FILE_MEM_SUCCESS ∧ AllReturnsOk ops rs
  | Op.alloc :: ops, _ :: rs => AllReturnsOk ops rs
  | Op.write _ _ :: ops, _ :: rs => AllReturnsOk ops rs
  | _, _ => False

/-- The partition of the slots: both queues have capacity `total`, and the Free
queue, the Released queue and the held slots together list every slot reference
of the pool exactly once. -/
def Partition (p : Pool) (held : List Nat) : Prop :=
  cbuffer_size p.free_list = p.total ∧ cbuffer_size p.released_list = p.total
  ∧ List.Perm (cbuffer_elems p.free_list ++ cbuffer_elems p.released_list ++ held)
      (slotRefs p)

/-- Both queues are within their capacity (invariant 5 of the data model) and the
Released queue is not larger than the Free queue (the constructor creates both
with capacity `num_objects`, the Free queue first). -/
def WithinCapacity (p : Pool) : Prop :=
  cbuffer_used p.free_list ≤ cbuffer_size p.free_list
  ∧ cbuffer_used p.released_list ≤ cbuffer_size p.released_list
  ∧ cbuffer_size p.released_list ≤ cbuffer_size p.free_list

/-- Conservation of slots as the program evaluates it: the sum of the three
counters, computed in `uint64_t` arithmetic, equals `total`. -/
def Conservation64 (p : Pool) : Prop :=
  (allocated p + freed p + released p) % 2 ^ 64 = p.total

/-! ## Memory lemmas -/

theorem read64_write64_magic (h : Heap) (p : Nat) :
    read64 (write64 h p FREE_MAGIC) p = FREE_MAGIC := by
  have e : ∀ k, k < 8 → write64 h p FREE_MAGIC (p + k) = (FREE_MAGIC / 256 ^ k) % 256 := by
    intro k hk
    have h1 : p ≤ p + k ∧ p + k < p + 8 := ⟨Nat.le_add_right _ _, by omega⟩
    simp only [write64, h1, and_self, if_true, Nat.add_sub_cancel_left]
  have e0 := e 0 (by decide)
  rw [Nat.add_zero] at e0
  simp only [read64, e0, e 1 (by decide), e 2 (by decide), e 3 (by decide),
    e 4 (by decide), e 5 (by decide), e 6 (by decide), e 7 (by decide)]
  decide

theorem write64_outside (h : Heap) (p v a : Nat) (ha : a < p ∨ p + 8 ≤ a) :
    write64 h p v a = h a := by
  have : ¬ (p ≤ a ∧ a < p + 8) := by omega
  simp only [write64, this, if_false]

/-! ## Queue lemmas -/

theorem cbuffer_write_success_iff (cb : Option CircularBuffer) (x : Nat) :
    (cbuffer_write cb x).1 = RetCode.success ↔ cbuffer_used cb < cbuffer_size cb := by
  cases cb with
  | none => simp [cbuffer_write, cbuffer_used, cbuffer_size]
  | some c =>
    by_cases hc : c.elems.length < c.size <;>
      simp [cbuffer_write, cbuffer_used, cbuffer_size, hc]

theorem cbuffer_write_fail_same (cb : Option CircularBuffer) (x : Nat)
    (hf : (cbuffer_write cb x).1 = RetCode.fail) : (cbuffer_write cb x).2 = cb := by
  cases cb with
  | none => rfl
  | some c =>
    by_cases hc : c.elems.length < c.size
    · simp [cbuffer_write, hc] at hf
    · simp [cbuffer_write, hc]

theorem cbuffer_write_success_elems (cb : Option CircularBuffer) (x : Nat)
    (hs : (cbuffer_write cb x).1 = RetCode.success) :
    cbuffer_elems (cbuffer_write cb x).2 = cbuffer_elems cb ++ [x]
      ∧ cbuffer_size (cbuffer_write cb x).2 = cbuffer_size cb
      ∧ cbuffer_used (cbuffer_write cb x).2 = cbuffer_used cb + 1 := by
  cases cb with
  | none => simp [cbuffer_write] at hs
  | some c =>
    by_cases hc : c.elems.length < c.size
    · simp [cbuffer_write, hc, cbuffer_elems, cbuffer_size, cbuffer_used]
    · simp [cbuffer_write, hc] at hs

theorem cbuffer_used_eq_length (cb : Option CircularBuffer) :
    cbuffer_used cb = (cbuffer_elems cb).length := by
  cases cb <;> rfl

/-! ## The shared return routine -/

theorem remove_success_iff (cb : Option CircularBuffer) (h : Heap) (obj : Nat) :
    (remove cb h obj).1 = RetCode.success ↔
      obj ≠ nullptr ∧ cbuffer_used cb < cbuffer_size cb ∧ read64 h obj ≠ FREE_MAGIC := by
  unfold remove
  by_cases h0 : obj = nullptr
  · simp [h0]
  · rw [if_neg h0]
    have hw := cbuffer_write_success_iff cb obj
    rcases hcw : cbuffer_write cb obj with ⟨c, cb1⟩
    rw [hcw] at hw
    cases c with
    | fail =>
      have : ¬ cbuffer_used cb < cbuffer_size cb := fun hlt => by
        have := hw.mpr hlt
        simp at this
      simp [this]
    | success =>
      have hlt : cbuffer_used cb < cbuffer_size cb := hw.mp rfl
      by_cases hm : read64 h obj = FREE_MAGIC <;> simp [hm, h0, hlt]

theorem remove_success_effect (cb : Option CircularBuffer) (h : Heap) (obj : Nat)
    (hs : (remove cb h obj).1 = RetCode.success) :
    (remove cb h obj).2.1 = (cbuffer_write cb obj).2
      ∧ (remove cb h obj).2.2 = write64 h obj FREE_MAGIC := by
  unfold remove at hs ⊢
  by_cases h0 : obj = nullptr
  · simp [h0] at hs
  · rw [if_neg h0] at hs ⊢
    rcases hcw : cbuffer_write cb obj with ⟨c, cb1⟩
    rw [hcw] at hs
    cases c with
    | fail => simp at hs
    | success =>
      by_cases hm : read64 h obj = FREE_MAGIC
      · simp [hm] at hs
      · simp [hm]

theorem remove_null (cb : Option CircularBuffer) (h : Heap) :
    remove cb h nullptr = (RetCode.fail, cb, h) := by
  simp [remove]

theorem remove_full (cb : Option CircularBuffer) (h : Heap) (obj : Nat)
    (hfull : ¬ cbuffer_used cb < cbuffer_size cb) :
    remove cb h obj = (RetCode.fail, cb, h) := by
  unfold remove
  by_cases h0 : obj = nullptr
  · simp [h0]
  · rw [if_neg h0]
    have hw := cbuffer_write_success_iff cb obj
    have hsame := cbuffer_write_fail_same cb obj
    rcases hcw : cbuffer_write cb obj with ⟨c, cb1⟩
    rw [hcw] at hw hsame
    cases c with
    | success => exact absurd (hw.mp rfl) hfull
    | fail =>
      have : cb1 = cb := hsame rfl
      simp [this]

theorem m_free_success_elems (p : Pool) (obj : Nat)
    (hs : (m_free p obj).1 = RetCode.success) :
    cbuffer_elems (m_free p obj).2.free_list = cbuffer_elems p.free_list ++ [obj]
      ∧ (m_free p obj).2.heap = write64 p.heap obj FREE_MAGIC := by
  have hs1 : (remove p.free_list p.heap obj).1 = RetCode.success := hs
  obtain ⟨hq, hh⟩ := remove_success_effect p.free_list p.heap obj hs1
  have hroom := ((remove_success_iff p.free_list p.heap obj).mp hs1).2.1
  have he := (cbuffer_write_success_elems p.free_list obj
    ((cbuffer_write_success_iff p.free_list obj).mpr hroom)).1
  have hfl : (m_free p obj).2.free_list = (cbuffer_write p.free_list obj).2 := hq
  exact ⟨by rw [hfl]; exact he, hh⟩

theorem m_release_success_elems (p : Pool) (obj : Nat)
    (hs : (m_release p obj).1 = RetCode.success) :
    cbuffer_elems (m_release p obj).2.released_list
        = cbuffer_elems p.released_list ++ [obj]
      ∧ (m_release p obj).2.heap = write64 p.heap obj FREE_MAGIC := by
  have hs1 : (remove p.released_list p.heap obj).1 = RetCode.success := hs
  obtain ⟨hq, hh⟩ := remove_success_effect p.released_list p.heap obj hs1
  have hroom := ((remove_success_iff p.released_list p.heap obj).mp hs1).2.1
  have he := (cbuffer_write_success_elems p.released_list obj
    ((cbuffer_write_success_iff p.released_list obj).mpr hroom)).1
  have hrl : (m_release p obj).2.released_list = (cbuffer_write p.released_list obj).2 := hq
  exact ⟨by rw [hrl]; exact he, hh⟩

/-- C9: `free(slot)` returns ok exactly when the slot is non-null, the Free queue
has space and the first 8 bytes of the slot differ from `FREE_MAGIC`; on ok the
first 8 bytes of the slot are `FREE_MAGIC`, the slot is the new tail of the Free
queue, `freed()` has grown by one, and the Released queue, `total`, the other
members and every byte outside the slot's first 8 are unchanged. -/
theorem m_free_ok_iff_and_effect (p : Pool) (obj : Nat) :
    ((m_free p obj).1 = FILE_MEM_SUCCESS ↔
        obj ≠ nullptr ∧ cbuffer_used p.free_list < cbuffer_size p.free_list
          ∧ read64 p.heap obj ≠ FREE_MAGIC)
    ∧ ((m_free p obj).1 = FILE_MEM_SUCCESS →
        read64 (m_free p obj).2.heap obj = FREE_MAGIC
        ∧ cbuffer_elems (m_free p obj).2.free_list = cbuffer_elems p.free_list ++ [obj]
        ∧ cbuffer_size (m_free p obj).2.free_list = cbuffer_size p.free_list
        ∧ freed (m_free p obj).2 = freed p + 1
        ∧ (m_free p obj).2.released_list = p.released_list
        ∧ (m_free p obj).2.total = p.total
        ∧ (m_free p obj).2.datapool = p.datapool
        ∧ (m_free p obj).2.obj_size = p.obj_size
        ∧ ∀ a, a < obj ∨ obj + 8 ≤ a → (m_free p obj).2.heap a = p.heap a) := by
  refine ⟨remove_success_iff p.free_list p.heap obj, ?_⟩
  intro hs
  have hs1 : (remove p.free_list p.heap obj).1 = RetCode.success := hs
  obtain ⟨hq, hh⟩ := remove_success_effect p.free_list p.heap obj hs1
  have hroom := ((remove_success_iff p.free_list p.heap obj).mp hs1).2.1
  obtain ⟨he, hsz, hu⟩ := cbuffer_write_success_elems p.free_list obj
    ((cbuffer_write_success_iff p.free_list obj).mpr hroom)
  have hfl : (m_free p obj).2.free_list = (cbuffer_write p.free_list obj).2 := hq
  have hhp : (m_free p obj).2.heap = write64 p.heap obj FREE_MAGIC := hh
  refine ⟨?_, ?_, ?_, ?_, rfl, rfl, rfl, rfl, ?_⟩
  · rw [hhp]; exact read64_write64_magic p.heap obj
  · rw [hfl]; exact he
  · rw [hfl]; exact hsz
  · show cbuffer_used (m_free p obj).2.free_list = cbuffer_used p.free_list + 1
    rw [hfl]; exact hu
  · intro a ha
    rw [hhp]; exact write64_outside p.heap obj FREE_MAGIC a ha

/-- Witness for C9 on the pool built with `N = 2`, `S = 16` after the first slot has
been handed out and written to: `free` of that slot returns ok, stamps the magic
and makes `freed()` grow from 1 to 2. -/
theorem m_free_ok_iff_and_effect_witness :
    (m_free (run (mkPool 2 16) [Op.alloc, Op.write 4096 0]).2 4096).1 = FILE_MEM_SUCCESS
    ∧ read64 (m_free (run (mkPool 2 16) [Op.alloc, Op.write 4096 0]).2 4096).2.heap 4096
        = FREE_MAGIC
    ∧ cbuffer_elems (m_free (run (mkPool 2 16) [Op.alloc, Op.write 4096 0]).2 4096
        ).2.free_list = [4112, 4096]
    ∧ freed (m_free (run (mkPool 2 16) [Op.alloc, Op.write 4096 0]).2 4096).2 = 2 :=
  ⟨by decide,
   ((m_free_ok_iff_and_effect _ 4096).2 (by decide)).1,
   by decide,
   by decide⟩

/-- C10: `free(null)` and `release(null)` return fail, and so do `free(x)` and
`release(x)` when the target queue has no room left (it holds as many entries as
its capacity); in each of these cases the pool is returned exactly as it was: both
queues, the heap, `total` and hence all three counters. -/
theorem m_free_m_release_fail_unchanged (p : Pool) (x : Nat) :
    m_free p nullptr = (FILE_MEM_FAIL, p)
    ∧ m_release p nullptr = (FILE_MEM_FAIL, p)
    ∧ (¬ cbuffer_used p.free_list < cbuffer_size p.free_list →
        m_free p x = (FILE_MEM_FAIL, p))
    ∧ (¬ cbuffer_used p.released_list < cbuffer_size p.released_list →
        m_release p x = (FILE_MEM_FAIL, p)) := by
  refine ⟨?_, ?_, ?_, ?_⟩
  · simp [m_free, remove_null]
  · simp [m_release, remove_null]
  · intro hfull
    simp [m_free, remove_full p.free_list p.heap x hfull]
  · intro hfull
    simp [m_release, remove_full p.released_list p.heap x hfull]

/-- Witness for C10 on the freshly built pool with `N = 1`, `S = 16`, whose Free
queue is full and whose Released queue is empty: a `free` is refused for lack of
room and a `free(null)` / `release(null)` for the null slot, the pool staying as
it is. -/
theorem m_free_m_release_fail_unchanged_witness :
    ¬ cbuffer_used (mkPool 1 16).free_list < cbuffer_size (mkPool 1 16).free_list
    ∧ m_free (mkPool 1 16) 4096 = (FILE_MEM_FAIL, mkPool 1 16)
    ∧ m_free (mkPool 1 16) nullptr = (FILE_MEM_FAIL, mkPool 1 16)
    ∧ m_release (mkPool 1 16) nullptr = (FILE_MEM_FAIL, mkPool 1 16) :=
  ⟨by decide,
   (m_free_m_release_fail_unchanged (mkPool 1 16) 4096).2.2.1 (by decide),
   (m_free_m_release_fail_unchanged (mkPool 1 16) 4096).1,
   (m_free_m_release_fail_unchanged (mkPool 1 16) 4096).2.1⟩

/-! ## Allocation -/

theorem m_alloc_from_free (p : Pool) (x : Nat) (xs : List Nat)
    (hf : cbuffer_elems p.free_list = x :: xs) :
    m_alloc p = (x, { p with
      free_list := some { size := cbuffer_size p.free_list, elems := xs } }) := by
  rcases p with ⟨dp, tot, fl, rl, os, hp⟩
  cases fl with
  | none => simp [cbuffer_elems] at hf
  | some c =>
    rcases c with ⟨sz, es⟩
    simp only [cbuffer_elems] at hf
    subst hf
    simp [m_alloc, cbuffer_read, cbuffer_size, nullptr]

theorem m_alloc_from_released (p : Pool) (x : Nat) (xs : List Nat)
    (hf : cbuffer_elems p.free_list = []) (hr : cbuffer_elems p.released_list = x :: xs) :
    m_alloc p = (x, { p with
      released_list := some { size := cbuffer_size p.released_list, elems := xs } }) := by
  rcases p with ⟨dp, tot, fl, rl, os, hp⟩
  cases rl with
  | none => simp [cbuffer_elems] at hr
  | some c =>
    rcases c with ⟨sz, es⟩
    simp only [cbuffer_elems] at hr
    subst hr
    cases fl with
    | none => simp [m_alloc, cbuffer_read, cbuffer_size, nullptr]
    | some d =>
      rcases d with ⟨sz2, es2⟩
      simp only [cbuffer_elems] at hf
      subst hf
      simp [m_alloc, cbuffer_read, cbuffer_size, nullptr]

theorem m_alloc_exhausted (p : Pool)
    (hf : cbuffer_elems p.free_list = []) (hr : cbuffer_elems p.released_list = []) :
    m_alloc p = (nullptr, p) := by
  rcases p with ⟨dp, tot, fl, rl, os, hp⟩
  cases fl with
  | none =>
    cases rl with
    | none => simp [m_alloc, cbuffer_read]
    | some c =>
      rcases c with ⟨sz, es⟩
      simp only [cbuffer_elems] at hr
      subst hr
      simp [m_alloc, cbuffer_read]
  | some d =>
    rcases d with ⟨sz2, es2⟩
    simp only [cbuffer_elems] at hf
    subst hf
    cases rl with
    | none => simp [m_alloc, cbuffer_read]
    | some c =>
      rcases c with ⟨sz, es⟩
      simp only [cbuffer_elems] at hr
      subst hr
      simp [m_alloc, cbuffer_read]

/-- C8: drain order of `alloc`. When the Free queue is non-empty, `alloc` returns
its head, pops it and leaves the Released queue untouched; when Free is empty and
Released is non-empty it returns (and pops) the head of Released, leaving Free
untouched; and, in a pool whose queues hold no null reference, it returns null if
and only if both queues are empty. -/
theorem m_alloc_drain_order (p : Pool) (hnn : NoNull p) :
    (∀ x xs, cbuffer_elems p.free_list = x :: xs →
        (m_alloc p).1 = x
        ∧ cbuffer_elems (m_alloc p).2.free_list = xs
        ∧ (m_alloc p).2.released_list = p.released_list)
    ∧ (∀ x xs, cbuffer_elems p.free_list = [] → cbuffer_elems p.released_list = x :: xs →
        (m_alloc p).1 = x
        ∧ cbuffer_elems (m_alloc p).2.released_list = xs
        ∧ (m_alloc p).2.free_list = p.free_list)
    ∧ ((m_alloc p).1 = nullptr ↔
        cbuffer_elems p.free_list = [] ∧ cbuffer_elems p.released_list = []) := by
  refine ⟨?_, ?_, ?_⟩
  · intro x xs hf
    rw [m_alloc_from_free p x xs hf]
    exact ⟨rfl, rfl, rfl⟩
  · intro x xs hf hr
    rw [m_alloc_from_released p x xs hf hr]
    exact ⟨rfl, rfl, rfl⟩
  · constructor
    · intro hnull
      cases hf : cbuffer_elems p.free_list with
      | cons x xs =>
        rw [m_alloc_from_free p x xs hf] at hnull
        exact absurd hnull (hnn x (by simp [hf]))
      | nil =>
        cases hr : cbuffer_elems p.released_list with
        | cons x xs =>
          rw [m_alloc_from_released p x xs hf hr] at hnull
          exact absurd hnull (hnn x (by simp [hr]))
        | nil => exact ⟨rfl, rfl⟩
    · rintro ⟨hf, hr⟩
      rw [m_alloc_exhausted p hf hr]

/-- Witness for C8 on the pool built with `N = 2`, `S = 16` after one slot has been
handed out, written to and released: Free holds one slot, Released the other; the
next alloc takes the Free slot, the one after it the Released slot. -/
theorem m_alloc_drain_order_witness :
    NoNull (run (mkPool 2 16) [Op.alloc, Op.write 4096 0, Op.release 4096]).2
    ∧ (m_alloc (run (mkPool 2 16) [Op.alloc, Op.write 4096 0, Op.release 4096]).2).1
        = 4112
    ∧ (m_alloc (run (mkPool 2 16) [Op.alloc, Op.write 4096 0, Op.release 4096]).2
        ).2.released_list
        = (run (mkPool 2 16) [Op.alloc, Op.write 4096 0, Op.release 4096]).2.released_list
    ∧ (m_alloc (run (mkPool 2 16)
          [Op.alloc, Op.write 4096 0, Op.release 4096, Op.alloc]).2).1 = 4096
    ∧ ¬ (m_alloc (run (mkPool 2 16)
          [Op.alloc, Op.write 4096 0, Op.release 4096, Op.alloc]).2).1 = nullptr :=
  ⟨by unfold NoNull; decide,
   ((m_alloc_drain_order _ (by unfold NoNull; decide)).1 4112 [] (by decide)).1,
   ((m_alloc_drain_order _ (by unfold NoNull; decide)).1 4112 [] (by decide)).2.2,
   ((m_alloc_drain_order _ (by unfold NoNull; decide)).2.1 4096 [] (by decide)
      (by decide)).1,
   fun hn => absurd ((m_alloc_drain_order _ (by unfold NoNull; decide)).2.2.mp hn).2
      (by decide)⟩

/-! ## The push-before-check order of `remove` on concrete runs -/

/-- C1 (evaluation of the code): pool built with `N = 2`, `S = 16`; both slots are
handed out, the caller writes a payload byte into the first slot and frees it (ok);
the second `free` of the same slot returns fail, yet the slot has been pushed a
second time: `freed()` goes from 1 to 2 and the Free queue holds the slot twice. -/
theorem double_free_is_enqueued :
    (run (mkPool 2 16)
        [Op.alloc, Op.alloc, Op.write 4096 0, Op.free 4096, Op.free 4096]).1
      = [Res.ptr 4096, Res.ptr 4112, Res.unit, Res.code FILE_MEM_SUCCESS,
         Res.code FILE_MEM_FAIL]
    ∧ freed (run (mkPool 2 16)
        [Op.alloc, Op.alloc, Op.write 4096 0, Op.free 4096]).2 = 1
    ∧ freed (run (mkPool 2 16)
        [Op.alloc, Op.alloc, Op.write 4096 0, Op.free 4096, Op.free 4096]).2 = 2
    ∧ cbuffer_elems (run (mkPool 2 16)
        [Op.alloc, Op.alloc, Op.write 4096 0, Op.free 4096, Op.free 4096]).2.free_list
      = [4096, 4096] := by
  decide

/-- C2 (evaluation of the code): after a slot has been freed twice (the second call
failing but enqueueing), two consecutive `alloc` calls both return that slot, with
no `free` or `release` between them; the run is not alias free. -/
theorem double_free_aliases_slot :
    (run (mkPool 2 16)
        [Op.alloc, Op.alloc, Op.write 4096 0, Op.free 4096, Op.free 4096,
         Op.alloc, Op.alloc]).1
      = [Res.ptr 4096, Res.ptr 4112, Res.unit, Res.code FILE_MEM_SUCCESS,
         Res.code FILE_MEM_FAIL, Res.ptr 4096, Res.ptr 4096]
    ∧ ¬ NoAliasing
        [Op.alloc, Op.alloc, Op.write 4096 0, Op.free 4096, Op.free 4096,
         Op.alloc, Op.alloc]
        (run (mkPool 2 16)
          [Op.alloc, Op.alloc, Op.write 4096 0, Op.free 4096, Op.free 4096,
           Op.alloc, Op.alloc]).1 := by
  have hres : (run (mkPool 2 16)
        [Op.alloc, Op.alloc, Op.write 4096 0, Op.free 4096, Op.free 4096,
         Op.alloc, Op.alloc]).1
      = [Res.ptr 4096, Res.ptr 4112, Res.unit, Res.code FILE_MEM_SUCCESS,
         Res.code FILE_MEM_FAIL, Res.ptr 4096, Res.ptr 4096] := by decide
  refine ⟨hres, ?_⟩
  rw [hres]
  intro hno
  obtain ⟨k, h1, h2, _⟩ := hno 5 6 4096 (by decide) rfl rfl rfl rfl (by decide)
  omega

/-- C5 (evaluation of the code): after a double free followed by a release of the
same slot, the two queues together hold 3 references in a pool of 2 slots: the
counter bound is broken, the third check of `verify` fires and `allocated()` has
wrapped to `2^64 - 1`. -/
theorem double_free_breaks_counter_bound :
    (run (mkPool 2 16)
        [Op.alloc, Op.alloc, Op.write 4096 0, Op.free 4096, Op.free 4096,
         Op.release 4096]).1
      = [Res.ptr 4096, Res.ptr 4112, Res.unit, Res.code FILE_MEM_SUCCESS,
         Res.code FILE_MEM_FAIL, Res.code FILE_MEM_FAIL]
    ∧ ¬ CounterBound (run (mkPool 2 16)
        [Op.alloc, Op.alloc, Op.write 4096 0, Op.free 4096, Op.free 4096,
         Op.release 4096]).2
    ∧ verify (run (mkPool 2 16)
        [Op.alloc, Op.alloc, Op.write 4096 0, Op.free 4096, Op.free 4096,
         Op.release 4096]).2 = (false, false, true)
    ∧ allocated (run (mkPool 2 16)
        [Op.alloc, Op.alloc, Op.write 4096 0, Op.free 4096, Op.free 4096,
         Op.release 4096]).2 = 2 ^ 64 - 1 := by
  refine ⟨by decide, ?_, by decide, by decide⟩
  unfold CounterBound
  decide

/-- The counters after a double free and a release, read as natural numbers: in a
pool of one slot, a slot that is freed (ok), freed again and then released sits
once in each queue; `allocated()` returns `2^64 - 1`, `freed()` and `released()`
return 1 each and `total` is 1, so without the 64-bit wrap of the sum the three
values do not add up to `total`. -/
theorem double_free_breaks_conservation :
    (run (mkPool 1 16)
        [Op.alloc, Op.write 4096 0, Op.free 4096, Op.free 4096, Op.release 4096]).1
      = [Res.ptr 4096, Res.unit, Res.code FILE_MEM_SUCCESS, Res.code FILE_MEM_FAIL,
         Res.code FILE_MEM_FAIL]
    ∧ allocated (run (mkPool 1 16)
        [Op.alloc, Op.write 4096 0, Op.free 4096, Op.free 4096, Op.release 4096]).2
      = 2 ^ 64 - 1
    ∧ freed (run (mkPool 1 16)
        [Op.alloc, Op.write 4096 0, Op.free 4096, Op.free 4096, Op.release 4096]).2 = 1
    ∧ released (run (mkPool 1 16)
        [Op.alloc, Op.write 4096 0, Op.free 4096, Op.free 4096, Op.release 4096]).2 = 1
    ∧ (run (mkPool 1 16)
        [Op.alloc, Op.write 4096 0, Op.free 4096, Op.free 4096, Op.release 4096]).2.total
      = 1
    ∧ ¬ Conservation (run (mkPool 1 16)
        [Op.alloc, Op.write 4096 0, Op.free 4096, Op.free 4096, Op.release 4096]).2 := by
  refine ⟨by decide, by decide, by decide, by decide, by decide, ?_⟩
  unfold Conservation
  decide

/-- C7 (evaluation of the code): a slot that was enqueued twice by a double free is
handed out again while its second reference is still queued; the holder then writes
its payload, as it may, and after the next pool call the Free queue holds a
reference whose first 8 bytes are not `FREE_MAGIC`. -/
theorem double_free_breaks_magic_invariant :
    (run (mkPool 2 16)
        [Op.alloc, Op.alloc, Op.write 4096 0, Op.free 4096, Op.free 4096,
         Op.alloc, Op.write 4096 0, Op.write 4112 0, Op.release 4112]).1
      = [Res.ptr 4096, Res.ptr 4112, Res.unit, Res.code FILE_MEM_SUCCESS,
         Res.code FILE_MEM_FAIL, Res.ptr 4096, Res.unit, Res.unit,
         Res.code FILE_MEM_SUCCESS]
    ∧ cbuffer_elems (run (mkPool 2 16)
        [Op.alloc, Op.alloc, Op.write 4096 0, Op.free 4096, Op.free 4096,
         Op.alloc, Op.write 4096 0, Op.write 4112 0, Op.release 4112]).2.free_list
      = [4096]
    ∧ ¬ MagicInvariant (run (mkPool 2 16)
        [Op.alloc, Op.alloc, Op.write 4096 0, Op.free 4096, Op.free 4096,
         Op.alloc, Op.write 4096 0, Op.write 4112 0, Op.release 4112]).2 := by
  refine ⟨by decide, by decide, ?_⟩
  intro hinv
  have h := hinv 4096 (by decide)
  revert h
  decide

/-! ## Runs of consecutive allocations -/

theorem allocN_add (a b : Nat) (p : Pool) :
    allocN (a + b) p = allocN b (allocN a p) := by
  induction a generalizing p with
  | zero => simp [allocN]
  | succ a ih =>
    rw [Nat.succ_add]
    exact ih (m_alloc p).2

theorem allocN_free_prefix (l rest : List Nat) (p : Pool)
    (hf : cbuffer_elems p.free_list = l ++ rest) :
    cbuffer_elems (allocN l.length p).free_list = rest
      ∧ cbuffer_size (allocN l.length p).free_list = cbuffer_size p.free_list
      ∧ (allocN l.length p).released_list = p.released_list
      ∧ (allocN l.length p).heap = p.heap
      ∧ (allocN l.length p).total = p.total := by
  induction l generalizing p with
  | nil =>
    cases hfl : p.free_list <;> simp_all [allocN]
  | cons x l ih =>
    have hstep := m_alloc_from_free p x (l ++ rest) hf
    have hnext := ih (m_alloc p).2 (by rw [hstep]; rfl)
    simp only [List.length_cons, allocN]
    rw [hstep] at hnext ⊢
    exact hnext

theorem allocN_released_prefix (l rest : List Nat) (p : Pool)
    (hf : cbuffer_elems p.free_list = [])
    (hr : cbuffer_elems p.released_list = l ++ rest) :
    cbuffer_elems (allocN l.length p).released_list = rest
      ∧ cbuffer_elems (allocN l.length p).free_list = []
      ∧ (allocN l.length p).heap = p.heap
      ∧ (allocN l.length p).total = p.total := by
  induction l generalizing p with
  | nil => simp_all [allocN]
  | cons x l ih =>
    have hstep := m_alloc_from_released p x (l ++ rest) hf hr
    have hnext := ih (m_alloc p).2 (by rw [hstep]; exact hf) (by rw [hstep]; rfl)
    simp only [List.length_cons, allocN]
    rw [hstep] at hnext ⊢
    exact hnext

theorem retcode_fail_of_not_success (c : RetCode) (h : ¬ c = RetCode.success) :
    c = RetCode.fail := by
  cases c with
  | success => exact absurd rfl h
  | fail => rfl

/-- After an `alloc` that returned a slot, the Free queue of a pool within its
capacities has room: either the slot was popped from it, or it is empty and as
large as the non-empty Released queue. -/
theorem free_room_after_alloc (p : Pool) (hwf : WithinCapacity p)
    (hb : (m_alloc p).1 ≠ nullptr) :
    cbuffer_used (m_alloc p).2.free_list < cbuffer_size (m_alloc p).2.free_list := by
  obtain ⟨h1, h2, h3⟩ := hwf
  rw [cbuffer_used_eq_length] at h1 h2
  cases hfe : cbuffer_elems p.free_list with
  | cons y ys =>
    rw [hfe] at h1
    rw [m_alloc_from_free p y ys hfe]
    simp only [cbuffer_used, cbuffer_size, List.length_cons] at h1 ⊢
    omega
  | nil =>
    cases hre : cbuffer_elems p.released_list with
    | cons y ys =>
      rw [hre] at h2
      rw [m_alloc_from_released p y ys hfe hre]
      show cbuffer_used p.free_list < cbuffer_size p.free_list
      rw [cbuffer_used_eq_length, hfe]
      simp only [List.length_cons, List.length_nil] at h2 ⊢
      omega
    | nil =>
      rw [m_alloc_exhausted p hfe hre] at hb
      exact absurd rfl hb

/-- C4 (counterexample): in the pool built with `N = 1`, `S = 16`, `alloc` returns
the slot at 4096 and an immediately following `release` (or `free`) of that slot,
with no caller write in between, returns fail, not ok. And in the pool built with
`N = 2`, `S = 16`, once two failed releases have filled the Released queue, the
slot 4112 returned by `alloc` and written to by the caller is refused by `release`
for lack of room. -/
theorem return_without_write_fails :
    (run (mkPool 1 16) [Op.alloc, Op.release 4096, Op.alloc]).1
      = [Res.ptr 4096, Res.code FILE_MEM_FAIL, Res.ptr 4096]
    ∧ (run (mkPool 1 16) [Op.alloc, Op.free 4096]).1
      = [Res.ptr 4096, Res.code FILE_MEM_FAIL]
    ∧ (4096 : Nat) ≠ nullptr
    ∧ (run (mkPool 2 16)
        [Op.alloc, Op.release 4096, Op.release 4096, Op.alloc, Op.write 4112 0,
         Op.release 4112]).1
      = [Res.ptr 4096, Res.code FILE_MEM_FAIL, Res.code FILE_MEM_FAIL, Res.ptr 4112,
         Res.unit, Res.code FILE_MEM_FAIL]
    ∧ read64 (run (mkPool 2 16)
        [Op.alloc, Op.release 4096, Op.release 4096, Op.alloc, Op.write 4112 0]).2.heap
        4112 ≠ FREE_MAGIC
    ∧ (4112 : Nat) ≠ nullptr := by
  decide

/-- C4 (amended): in a pool within its capacities, let `alloc` return a non-null
slot `b` and let the caller's stores leave the heap as `h2`. If the first 8 bytes
of `b` (still) equal `FREE_MAGIC`, `free(b)` and `release(b)` return fail. If they
differ from `FREE_MAGIC`, `free(b)` returns ok, and `release(b)` returns ok when
the Released queue has room; `b` then comes back from the alloc that reaches it:
after as many allocs as there are entries ahead of it (the Free entries for
`free`, the Free and Released entries for `release`), the next alloc returns
`b`. -/
theorem alloc_return_roundtrip (p : Pool) (h2 : Heap) (hwf : WithinCapacity p)
    (hb : (m_alloc p).1 ≠ nullptr) :
    (read64 h2 (m_alloc p).1 = FREE_MAGIC →
        (m_free (handedOut p h2) (m_alloc p).1).1 = FILE_MEM_FAIL
        ∧ (m_release (handedOut p h2) (m_alloc p).1).1 = FILE_MEM_FAIL)
    ∧ (read64 h2 (m_alloc p).1 ≠ FREE_MAGIC →
        (m_free (handedOut p h2) (m_alloc p).1).1 = FILE_MEM_SUCCESS
        ∧ (m_alloc (allocN (freed (handedOut p h2))
              (m_free (handedOut p h2) (m_alloc p).1).2)).1 = (m_alloc p).1)
    ∧ (read64 h2 (m_alloc p).1 ≠ FREE_MAGIC →
        cbuffer_used (handedOut p h2).released_list
          < cbuffer_size (handedOut p h2).released_list →
        (m_release (handedOut p h2) (m_alloc p).1).1 = FILE_MEM_SUCCESS
        ∧ (m_alloc (allocN (freed (handedOut p h2) + released (handedOut p h2))
              (m_release (handedOut p h2) (m_alloc p).1).2)).1 = (m_alloc p).1) := by
  have hfroom : cbuffer_used (handedOut p h2).free_list
      < cbuffer_size (handedOut p h2).free_list := free_room_after_alloc p hwf hb
  generalize hbdef : (m_alloc p).1 = b at hb ⊢
  generalize hsdef : handedOut p h2 = s at hfroom ⊢
  have hheap : s.heap = h2 := by rw [← hsdef]; rfl
  refine ⟨?_, ?_, ?_⟩
  · intro hm
    constructor
    · apply retcode_fail_of_not_success
      intro hs
      have := (remove_success_iff s.free_list s.heap b).mp hs
      rw [hheap] at this
      exact this.2.2 hm
    · apply retcode_fail_of_not_success
      intro hs
      have := (remove_success_iff s.released_list s.heap b).mp hs
      rw [hheap] at this
      exact this.2.2 hm
  · intro hm
    have hs : (m_free s b).1 = RetCode.success :=
      (remove_success_iff s.free_list s.heap b).mpr ⟨hb, hfroom, by rw [hheap]; exact hm⟩
    refine ⟨hs, ?_⟩
    have heff := m_free_success_elems s b hs
    have hpre := allocN_free_prefix (cbuffer_elems s.free_list) [b] (m_free s b).2 heff.1
    have hlen : freed s = (cbuffer_elems s.free_list).length := cbuffer_used_eq_length _
    rw [hlen, m_alloc_from_free _ b [] hpre.1]
  · intro hm hroom
    have hs : (m_release s b).1 = RetCode.success :=
      (remove_success_iff s.released_list s.heap b).mpr ⟨hb, hroom, by rw [hheap]; exact hm⟩
    refine ⟨hs, ?_⟩
    have hfl : (m_release s b).2.free_list = s.free_list := rfl
    have hrel := (m_release_success_elems s b hs).1
    have h1 := allocN_free_prefix (cbuffer_elems s.free_list) [] (m_release s b).2
      (by rw [hfl, List.append_nil])
    have h2 := allocN_released_prefix (cbuffer_elems s.released_list) [b]
      (allocN (cbuffer_elems s.free_list).length (m_release s b).2) h1.1
      (by rw [h1.2.2.1]; exact hrel)
    have hlenf : freed s = (cbuffer_elems s.free_list).length := cbuffer_used_eq_length _
    have hlenr : released s = (cbuffer_elems s.released_list).length :=
      cbuffer_used_eq_length _
    rw [hlenf, hlenr, allocN_add, m_alloc_from_released _ b [] h2.2.1 h2.1]

/-- Witness for C4 (amended) on the pool built with `N = 1`, `S = 16`: `alloc`
returns the slot `p = 4096`, the caller clears its first byte, `release(p)` (and
likewise `free(p)`) returns ok and the next alloc returns `p` again; then
`allocated() = 1`, `released() = 0`, `freed() = 0`. -/
theorem alloc_return_roundtrip_witness :
    WithinCapacity (mkPool 1 16)
    ∧ (m_alloc (mkPool 1 16)).1 ≠ nullptr
    ∧ (m_alloc (mkPool 1 16)).1 = 4096
    ∧ (m_release (handedOut (mkPool 1 16) (poke (mkPool 1 16).heap 4096 0)) 4096).1
        = FILE_MEM_SUCCESS
    ∧ (m_alloc (allocN 0
          (m_release (handedOut (mkPool 1 16) (poke (mkPool 1 16).heap 4096 0)) 4096).2)).1
        = 4096
    ∧ (m_free (handedOut (mkPool 1 16) (poke (mkPool 1 16).heap 4096 0)) 4096).1
        = FILE_MEM_SUCCESS
    ∧ (run (mkPool 1 16) [Op.alloc, Op.write 4096 0, Op.release 4096, Op.alloc]).1
        = [Res.ptr 4096, Res.unit, Res.code FILE_MEM_SUCCESS, Res.ptr 4096]
    ∧ allocated (run (mkPool 1 16)
        [Op.alloc, Op.write 4096 0, Op.release 4096, Op.alloc]).2 = 1
    ∧ released (run (mkPool 1 16)
        [Op.alloc, Op.write 4096 0, Op.release 4096, Op.alloc]).2 = 0
    ∧ freed (run (mkPool 1 16)
        [Op.alloc, Op.write 4096 0, Op.release 4096, Op.alloc]).2 = 0 :=
  have hwf : WithinCapacity (mkPool 1 16) := ⟨by decide, by decide, by decide⟩
  ⟨hwf, by decide, by decide,
   ((alloc_return_roundtrip (mkPool 1 16) (poke (mkPool 1 16).heap 4096 0) hwf
      (by decide)).2.2 (by decide) (by decide)).1,
   ((alloc_return_roundtrip (mkPool 1 16) (poke (mkPool 1 16).heap 4096 0) hwf
      (by decide)).2.2 (by decide) (by decide)).2,
   ((alloc_return_roundtrip (mkPool 1 16) (poke (mkPool 1 16).heap 4096 0) hwf
      (by decide)).2.1 (by decide)).1,
   by decide, by decide, by decide, by decide⟩

/-! ## The constructor loop -/

theorem stamped_succ (base S : Nat) (h : Heap) (i n : Nat) :
    stamped base S h i (n + 1)
      = stamped base S (write64 h (base + i * S) FREE_MAGIC) (i + 1) n := rfl

/-- With `num_objects < 2^32` the loop counter never wraps: started at `i` with `i`
references queued, the loop installs the slots `i … N-1` and ends by its condition. -/
theorem ctorLoop_installs (N : Nat) (hN : N < 2 ^ 32) :
    ∀ (fuel i : Nat) (p : Pool) (es : List Nat),
      p.free_list = some { size := N, elems := es } → es.length = i → i ≤ N →
      N - i < fuel → 1 ≤ p.obj_size → p.datapool + N * p.obj_size ≤ 2 ^ 64 →
      p.total = i →
      ctorLoop N fuel i p = some { p with
        free_list := some { size := N, elems := es ++
          (List.range' i (N - i)).map (fun j => p.datapool + j * p.obj_size) }
        total := N
        heap := stamped p.datapool p.obj_size p.heap i (N - i) } := by
  intro fuel
  induction fuel with
  | zero => intro i p es _ _ _ hfuel; omega
  | succ fuel ih =>
    intro i p es hfl hlen hi hfuel hS hslab htot
    rcases p with ⟨dp, tot, fl, rl, os, hp⟩
    simp only at hfl hS hslab htot
    subst hfl htot
    by_cases hlt : tot < N
    · obtain ⟨k, hk⟩ : ∃ k, N - tot = k + 1 := ⟨N - tot - 1, by omega⟩
      have hmul : tot * os + os ≤ N * os := by
        have : (tot + 1) * os ≤ N * os := Nat.mul_le_mul_right os hlt
        rwa [Nat.add_mul, Nat.one_mul] at this
      have hdata : (dp + (tot * os) % 2 ^ 64) % 2 ^ 64 = dp + tot * os := by
        have h1 : tot * os < 2 ^ 64 := by omega
        rw [Nat.mod_eq_of_lt h1, Nat.mod_eq_of_lt (by omega)]
      have hi1 : (tot + 1) % 2 ^ 32 = tot + 1 := Nat.mod_eq_of_lt (by omega)
      have ht1 : (tot + 1) % 2 ^ 64 = tot + 1 := Nat.mod_eq_of_lt (by omega)
      have hstep := ih (tot + 1)
        { datapool := dp, total := tot + 1,
          free_list := some { size := N, elems := es ++ [dp + tot * os] },
          released_list := rl, obj_size := os,
          heap := write64 hp (dp + tot * os) FREE_MAGIC }
        (es ++ [dp + tot * os]) rfl (by simp [hlen]) (by omega) (by omega) hS hslab rfl
      have hk2 : N - (tot + 1) = k := by omega
      simp only [hk2] at hstep
      simp only [ctorLoop, hlt, if_true, hdata, cbuffer_write, hlen, hi1, ht1, hk,
        List.range'_succ, List.map_cons, stamped_succ]
      rw [hstep]
      simp [List.append_assoc]
    · have hiN : tot = N := by omega
      subst hiN
      simp [ctorLoop, stamped]

/-- What the constructor loop does to the queues, for every `num_objects`: the
Released queue is not touched, the capacity of the Free queue is kept and not
exceeded, and every reference the Free queue has gained is a slot address
`datapool + j·obj_size` (in 64-bit arithmetic) with `j < num_objects`. -/
theorem ctorLoop_queues (N : Nat) :
    ∀ (fuel i : Nat) (p q : Pool), ctorLoop N fuel i p = some q →
      q.released_list = p.released_list
      ∧ cbuffer_size q.free_list = cbuffer_size p.free_list
      ∧ (cbuffer_used p.free_list ≤ cbuffer_size p.free_list →
          cbuffer_used q.free_list ≤ cbuffer_size q.free_list)
      ∧ (∀ x ∈ cbuffer_elems q.free_list, x ∈ cbuffer_elems p.free_list
          ∨ ∃ j, j < N ∧ x = (p.datapool + (j * p.obj_size) % 2 ^ 64) % 2 ^ 64) := by
  intro fuel
  induction fuel with
  | zero => intro i p q hq; simp [ctorLoop] at hq
  | succ fuel ih =>
    intro i p q hq
    rcases p with ⟨dp, tot, fl, rl, os, hp⟩
    by_cases hlt : i < N
    · cases fl with
      | none =>
        simp only [ctorLoop, hlt, if_true, cbuffer_write, Option.some.injEq] at hq
        subst hq
        exact ⟨rfl, rfl, fun hle => hle, fun x hx => Or.inl hx⟩
      | some c =>
        by_cases hroom : c.elems.length < c.size
        · simp only [ctorLoop, hlt, if_true, cbuffer_write, hroom] at hq
          obtain ⟨h1, h2, h3, h4⟩ := ih _ _ _ hq
          refine ⟨h1, h2, fun _ => h3 ?_, ?_⟩
          · simp only [cbuffer_used, cbuffer_size, List.length_append,
              List.length_singleton]
            omega
          · intro x hx
            rcases h4 x hx with hin | ⟨j, hj, hxj⟩
            · simp only [cbuffer_elems, List.mem_append, List.mem_singleton] at hin
              rcases hin with hin | hin
              · exact Or.inl hin
              · exact Or.inr ⟨i, hlt, hin⟩
            · exact Or.inr ⟨j, hj, hxj⟩
        · simp only [ctorLoop, hlt, if_true, cbuffer_write, hroom, if_false,
            Option.some.injEq] at hq
          subst hq
          exact ⟨rfl, rfl, fun hle => hle, fun x hx => Or.inl hx⟩
    · simp only [ctorLoop, hlt, if_false, Option.some.injEq] at hq
      subst hq
      exact ⟨rfl, rfl, fun hle => hle, fun x hx => Or.inl hx⟩

/-- Construction with `1 ≤ num_objects < 2^32`, a slab that fits the address space
and both queues obtained: the constructor returns, with every slot stamped and
queued in address order. -/
theorem ctor_installs (env : Env) (h : Heap) (N S : Nat)
    (hN1 : 1 ≤ N) (hN : N < 2 ^ 32) (hS : 1 ≤ S)
    (hf : env.free_ok = true) (hr : env.released_ok = true)
    (hslab : env.slab + N * S ≤ 2 ^ 64) :
    ctor env h N S = some
      { datapool := env.slab, total := N,
        free_list :=
          some { size := N, elems := (List.range' 0 N).map (fun j => env.slab + j * S) },
        released_list := some { size := N, elems := [] },
        obj_size := S,
        heap := stamped env.slab S (zeroFill h env.slab (N * S)) 0 N } := by
  have hcond : ¬ (N < 1 ∨ S < 1) := by omega
  simp only [ctor, hcond, if_false, cbuffer_init, hf, hr, if_true, Option.isNone_some,
    Bool.false_eq_true]
  have := ctorLoop_installs N hN (N + 1) 0
    { datapool := env.slab, total := 0,
      free_list := some { size := N, elems := [] },
      released_list := some { size := N, elems := [] },
      obj_size := S, heap := zeroFill h env.slab (N * S) }
    [] rfl rfl (Nat.zero_le _) (by omega) hS hslab rfl
  simpa [degenerate] using this

theorem m_alloc_allocN_nth (p : Pool) (l : List Nat) (hl : cbuffer_elems p.free_list = l)
    (k : Nat) (hk : k < l.length) :
    (m_alloc (allocN k p)).1 = l[k] := by
  have hsplit : cbuffer_elems p.free_list = l.take k ++ l.drop k := by
    rw [hl, List.take_append_drop]
  have hpre := allocN_free_prefix (l.take k) (l.drop k) p hsplit
  have hlen : (l.take k).length = k := by
    rw [List.length_take]; omega
  rw [hlen] at hpre
  have hdrop : l.drop k = l[k] :: l.drop (k + 1) := List.drop_eq_getElem_cons hk
  rw [m_alloc_from_free (allocN k p) l[k] (l.drop (k + 1)) (by rw [hpre.1, hdrop])]

/-- On a pool whose Free queue holds the `N` slots `base + k·S` in order and whose
Released queue is empty, `N` allocs return these slots and the next one fails. -/
theorem capacity_cap_of_fresh (P : Pool) (base N S : Nat) (hN : N < 2 ^ 64)
    (hbase : 0 < base)
    (hfl : cbuffer_elems P.free_list = (List.range' 0 N).map (fun j => base + j * S))
    (hrl : cbuffer_elems P.released_list = []) (htot : P.total = N) :
    (∀ k, k < N → (m_alloc (allocN k P)).1 = base + k * S
        ∧ (m_alloc (allocN k P)).1 ≠ nullptr)
    ∧ (m_alloc (allocN N P)).1 = nullptr
    ∧ allocated (allocN (N + 1) P) = N
    ∧ freed (allocN (N + 1) P) = 0
    ∧ released (allocN (N + 1) P) = 0 := by
  have hlenN : ((List.range' 0 N).map (fun j => base + j * S)).length = N := by simp
  have hall := allocN_free_prefix _ [] P (by rw [hfl, List.append_nil])
  rw [hlenN] at hall
  have hrel0 : cbuffer_elems (allocN N P).released_list = [] := by
    rw [hall.2.2.1, hrl]
  have hlast := m_alloc_exhausted (allocN N P) hall.1 hrel0
  have hfinal : allocN (N + 1) P = allocN N P := by
    rw [allocN_add]
    show (m_alloc (allocN N P)).2 = allocN N P
    rw [hlast]
  have hf0 : freed (allocN N P) = 0 := by
    rw [freed, cbuffer_used_eq_length, hall.1]; rfl
  have hr0 : released (allocN N P) = 0 := by
    rw [released, cbuffer_used_eq_length, hrel0]; rfl
  refine ⟨?_, ?_, ?_, ?_, ?_⟩
  · intro k hk
    have hnth := m_alloc_allocN_nth P _ hfl k (by rw [hlenN]; exact hk)
    have hval : (m_alloc (allocN k P)).1 = base + k * S := by
      rw [hnth]; simp
    refine ⟨hval, ?_⟩
    rw [hval]
    show base + k * S ≠ 0
    omega
  · rw [hlast]
  · rw [hfinal]
    simp only [allocated, hf0, hr0, hall.2.2.2.2, htot]
    omega
  · rw [hfinal]; exact hf0
  · rw [hfinal]; exact hr0

/-- Capacity cap below the wrap of the loop counter: for `1 ≤ N < 2^32`, a non-null
slab that fits the address space and both queues obtained, the constructor returns
a pool on which the first `N` allocs return the non-null slots `slab + k·S` in
order, the `(N+1)`-th alloc returns null, and afterwards `allocated() = N`,
`freed() = 0`, `released() = 0`. -/
theorem capacity_cap_below_two_pow_32 (env : Env) (h : Heap) (N S : Nat)
    (hN1 : 1 ≤ N) (hN : N < 2 ^ 32) (hS : 1 ≤ S)
    (hf : env.free_ok = true) (hr : env.released_ok = true)
    (hnull : 0 < env.slab) (hslab : env.slab + N * S ≤ 2 ^ 64) :
    ∃ P, ctor env h N S = some P
      ∧ (∀ k, k < N → (m_alloc (allocN k P)).1 = env.slab + k * S
          ∧ (m_alloc (allocN k P)).1 ≠ nullptr)
      ∧ (m_alloc (allocN N P)).1 = nullptr
      ∧ allocated (allocN (N + 1) P) = N
      ∧ freed (allocN (N + 1) P) = 0
      ∧ released (allocN (N + 1) P) = 0 :=
  ⟨_, ctor_installs env h N S hN1 hN hS hf hr hslab,
    capacity_cap_of_fresh _ env.slab N S (by omega) hnull rfl rfl rfl⟩

/-- Witness for the capacity cap at `N = 3`, `S = 16`, slab at 4096. -/
theorem capacity_cap_below_two_pow_32_witness :
    ∃ P, ctor env0 heap0 3 16 = some P
      ∧ (∀ k, k < 3 → (m_alloc (allocN k P)).1 = env0.slab + k * 16
          ∧ (m_alloc (allocN k P)).1 ≠ nullptr)
      ∧ (m_alloc (allocN 3 P)).1 = nullptr
      ∧ allocated (allocN (3 + 1) P) = 3
      ∧ freed (allocN (3 + 1) P) = 0
      ∧ released (allocN (3 + 1) P) = 0 :=
  capacity_cap_below_two_pow_32 env0 heap0 3 16 (by decide) (by decide) (by decide)
    rfl rfl (by decide) (by decide)

/-! ## The constructor always returns -/

/-- The loop needs at most one round more than the Free queue has room: every round
that does not leave the loop pushes one reference. -/
theorem ctorLoop_returns (N : Nat) :
    ∀ (fuel i : Nat) (p : Pool) (c : CircularBuffer),
      p.free_list = some c → c.size - c.elems.length < fuel →
      ∃ q, ctorLoop N fuel i p = some q := by
  intro fuel
  induction fuel with
  | zero => intro i p c _ hfuel; omega
  | succ fuel ih =>
    intro i p c hfl hfuel
    rcases p with ⟨dp, tot, fl, rl, os, hp⟩
    simp only at hfl
    subst hfl
    by_cases hlt : i < N
    · by_cases hroom : c.elems.length < c.size
      · obtain ⟨q, hq⟩ := ih ((i + 1) % 2 ^ 32)
          { datapool := dp, total := (tot + 1) % 2 ^ 64,
            free_list := some { c with elems := c.elems ++
              [(dp + (i * os) % 2 ^ 64) % 2 ^ 64] },
            released_list := rl, obj_size := os,
            heap := write64 hp ((dp + (i * os) % 2 ^ 64) % 2 ^ 64) FREE_MAGIC }
          _ rfl (by simp; omega)
        exact ⟨q, by simp only [ctorLoop, hlt, if_true, cbuffer_write, hroom]; exact hq⟩
      · exact ⟨_, by simp only [ctorLoop, hlt, if_true, cbuffer_write, hroom, if_false]; rfl⟩
    · exact ⟨_, by simp only [ctorLoop, hlt, if_false]; rfl⟩

/-- The constructor returns a pool for every `num_objects` and `o_size`, in every
environment: the fuel given to its loop is never used up. -/
theorem ctor_returns (env : Env) (h : Heap) (N S : Nat) :
    ∃ P, ctor env h N S = some P := by
  by_cases hcond : N < 1 ∨ S < 1
  · exact ⟨_, by simp only [ctor, hcond, if_true]; rfl⟩
  · cases hf : env.free_ok with
    | false =>
      exact ⟨_, by simp only [ctor, hcond, if_false, cbuffer_init, hf, Bool.false_eq_true,
        Option.isNone_none, if_true]; rfl⟩
    | true =>
      cases hr : env.released_ok with
      | false =>
        exact ⟨_, by simp only [ctor, hcond, if_false, cbuffer_init, hf, hr, if_true,
          Bool.false_eq_true, Option.isNone_none, Option.isNone_some]; rfl⟩
      | true =>
        obtain ⟨q, hq⟩ := ctorLoop_returns N (N + 1) 0
          { datapool := env.slab, total := 0,
            free_list := some { size := N, elems := [] },
            released_list := some { size := N, elems := [] },
            obj_size := S, heap := zeroFill h env.slab (N * S) }
          { size := N, elems := [] } rfl (by simp)
        refine ⟨q, ?_⟩
        simp only [ctor, hcond, if_false, cbuffer_init, hf, hr, if_true, Option.isNone_some,
          Bool.false_eq_true]
        simpa [degenerate] using hq

/-- The pool of the concrete scenarios is the pool the constructor returns. -/
theorem ctor_eq_mkPool (n s : Nat) : ctor env0 heap0 n s = some (mkPool n s) := by
  obtain ⟨P, hP⟩ := ctor_returns env0 heap0 n s
  simp [mkPool, hP]

/-! ## Queues never hold a null reference -/

theorem remove_elems_subset (cb : Option CircularBuffer) (h : Heap) (obj : Nat) :
    ∀ x ∈ cbuffer_elems (remove cb h obj).2.1, x ∈ cbuffer_elems cb ∨ (x = obj ∧ obj ≠ nullptr) := by
  intro x hx
  unfold remove at hx
  by_cases h0 : obj = nullptr
  · rw [if_pos h0] at hx
    exact Or.inl hx
  · rw [if_neg h0] at hx
    have hsame := cbuffer_write_fail_same cb obj
    have helems := cbuffer_write_success_elems cb obj
    rcases hcw : cbuffer_write cb obj with ⟨c, cb1⟩
    rw [hcw] at hx hsame helems
    cases c with
    | fail =>
      have : cb1 = cb := hsame rfl
      subst this
      exact Or.inl hx
    | success =>
      have he : cbuffer_elems cb1 = cbuffer_elems cb ++ [obj] := (helems rfl).1
      have hx2 : x ∈ cbuffer_elems cb ++ [obj] := by
        rw [← he]
        by_cases hm : read64 h obj = FREE_MAGIC
        · simpa [hm] using hx
        · simpa [hm] using hx
      rcases List.mem_append.mp hx2 with hl | hr
      · exact Or.inl hl
      · exact Or.inr ⟨by simpa using hr, h0⟩

theorem m_alloc_elems_subset (p : Pool) :
    (∀ x ∈ cbuffer_elems (m_alloc p).2.free_list, x ∈ cbuffer_elems p.free_list)
    ∧ (∀ x ∈ cbuffer_elems (m_alloc p).2.released_list,
        x ∈ cbuffer_elems p.released_list) := by
  cases hf : cbuffer_elems p.free_list with
  | cons y ys =>
    rw [m_alloc_from_free p y ys hf]
    exact ⟨fun x hx => List.mem_cons_of_mem _ hx, fun x hx => hx⟩
  | nil =>
    cases hr : cbuffer_elems p.released_list with
    | cons y ys =>
      rw [m_alloc_from_released p y ys hf hr]
      refine ⟨fun x hx => ?_, fun x hx => List.mem_cons_of_mem _ hx⟩
      have hx2 : x ∈ cbuffer_elems p.free_list := hx
      rwa [hf] at hx2
    | nil =>
      rw [m_alloc_exhausted p hf hr]
      refine ⟨fun x hx => ?_, fun x hx => ?_⟩
      · rwa [hf] at hx
      · rwa [hr] at hx

/-- Every event of a run keeps the queues free of null references. -/
theorem step_preserves_NoNull (p : Pool) (op : Op) (hp : NoNull p) :
    NoNull (step p op).2 := by
  intro x hx
  rcases List.mem_append.mp hx with hxf | hxr
  · cases op with
    | alloc =>
      exact hp x (List.mem_append_left _ ((m_alloc_elems_subset p).1 x hxf))
    | free obj =>
      rcases remove_elems_subset p.free_list p.heap obj x hxf with h1 | ⟨h1, h2⟩
      · exact hp x (List.mem_append_left _ h1)
      · rw [h1]; exact h2
    | release obj => exact hp x (List.mem_append_left _ hxf)
    | write a v => exact hp x (List.mem_append_left _ hxf)
  · cases op with
    | alloc =>
      exact hp x (List.mem_append_right _ ((m_alloc_elems_subset p).2 x hxr))
    | free obj => exact hp x (List.mem_append_right _ hxr)
    | release obj =>
      rcases remove_elems_subset p.released_list p.heap obj x hxr with h1 | ⟨h1, h2⟩
      · exact hp x (List.mem_append_right _ h1)
      · rw [h1]; exact h2
    | write a v => exact hp x (List.mem_append_right _ hxr)

theorem run_preserves_NoNull (ops : List Op) (p : Pool) (hp : NoNull p) :
    NoNull (run p ops).2 := by
  induction ops generalizing p with
  | nil => exact hp
  | cons op ops ih => exact ih (step p op).2 (step_preserves_NoNull p op hp)

/-- The constructor, given a non-null slab that fits the address space, never
queues a null reference, whatever `num_objects` and `o_size` are. -/
theorem ctor_NoNull (env : Env) (h : Heap) (N S : Nat) (P : Pool)
    (hN64 : N < 2 ^ 64) (hnull : 0 < env.slab) (hslab : env.slab + N * S ≤ 2 ^ 64)
    (hP : ctor env h N S = some P) : NoNull P := by
  have _h64 := hN64
  have hempty : ∀ q : Pool, cbuffer_elems q.free_list = [] →
      cbuffer_elems q.released_list = [] → NoNull q := by
    intro q h1 h2 x hx
    rw [h1, h2] at hx
    simp at hx
  by_cases hcond : N < 1 ∨ S < 1
  · simp only [ctor, hcond, if_true, Option.some.injEq] at hP
    subst hP
    exact hempty _ rfl rfl
  · by_cases hf : env.free_ok = true
    · by_cases hr : env.released_ok = true
      · simp only [ctor, hcond, if_false, cbuffer_init, hf, hr, if_true,
          Option.isNone_some, Bool.false_eq_true] at hP
        obtain ⟨h1, -, -, h4⟩ := ctorLoop_queues N _ _ _ _ hP
        intro x hx
        rcases List.mem_append.mp hx with hxf | hxr
        · rcases h4 x hxf with hin | ⟨j, hj, hxj⟩
          · simp [cbuffer_elems] at hin
          · have hmul : j * S + S ≤ N * S := by
              have : (j + 1) * S ≤ N * S := Nat.mul_le_mul_right S hj
              rwa [Nat.add_mul, Nat.one_mul] at this
            simp only at hxj
            show x ≠ 0
            omega
        · rw [h1] at hxr
          simp [cbuffer_elems] at hxr
      · simp only [ctor, hcond, if_false, cbuffer_init, hf, hr, if_true, Option.isNone_some,
          Bool.false_eq_true, Option.isNone_none, Option.some.injEq] at hP
        subst hP
        exact hempty _ rfl rfl
    · simp only [ctor, hcond, if_false, cbuffer_init, hf, if_true,
        Bool.false_eq_true, Option.isNone_none, Option.some.injEq] at hP
      subst hP
      exact hempty _ rfl rfl

/-! ## Queues stay within their capacity -/

theorem remove_within_capacity (cb : Option CircularBuffer) (h : Heap) (obj : Nat)
    (hle : cbuffer_used cb ≤ cbuffer_size cb) :
    cbuffer_used (remove cb h obj).2.1 ≤ cbuffer_size (remove cb h obj).2.1
      ∧ cbuffer_size (remove cb h obj).2.1 = cbuffer_size cb := by
  by_cases h0 : obj = nullptr
  · simp [remove, h0, hle]
  · cases cb with
    | none => simp [remove, h0, cbuffer_write, cbuffer_used, cbuffer_size]
    | some c =>
      simp only [cbuffer_used, cbuffer_size] at hle
      by_cases hroom : c.elems.length < c.size
      · by_cases hm : read64 h obj = FREE_MAGIC
        · simp only [remove, h0, if_false, cbuffer_write, hroom, if_true, hm, cbuffer_used,
            cbuffer_size, List.length_append, List.length_singleton, and_true]
          omega
        · simp only [remove, h0, if_false, cbuffer_write, hroom, if_true, hm, cbuffer_used,
            cbuffer_size, List.length_append, List.length_singleton, and_true]
          omega
      · simp only [remove, h0, if_false, cbuffer_write, hroom, cbuffer_used, cbuffer_size,
          and_true]
        exact hle

theorem m_alloc_within_capacity (p : Pool) (hwf : WithinCapacity p) :
    WithinCapacity (m_alloc p).2 := by
  obtain ⟨h1, h2, h3⟩ := hwf
  cases hfe : cbuffer_elems p.free_list with
  | cons y ys =>
    rw [m_alloc_from_free p y ys hfe]
    rw [cbuffer_used_eq_length, hfe] at h1
    refine ⟨?_, h2, h3⟩
    simp only [cbuffer_used, cbuffer_size, List.length_cons] at h1 ⊢
    omega
  | nil =>
    cases hre : cbuffer_elems p.released_list with
    | cons y ys =>
      rw [m_alloc_from_released p y ys hfe hre]
      rw [cbuffer_used_eq_length, hre] at h2
      refine ⟨h1, ?_, h3⟩
      simp only [cbuffer_used, cbuffer_size, List.length_cons] at h2 ⊢
      omega
    | nil =>
      rw [m_alloc_exhausted p hfe hre]
      exact ⟨h1, h2, h3⟩

/-- Every event of a run keeps both queues within their capacity. -/
theorem step_preserves_WithinCapacity (p : Pool) (op : Op) (hwf : WithinCapacity p) :
    WithinCapacity (step p op).2 := by
  cases op with
  | alloc => exact m_alloc_within_capacity p hwf
  | free obj =>
    obtain ⟨h1, h2, h3⟩ := hwf
    obtain ⟨ha, hb⟩ := remove_within_capacity p.free_list p.heap obj h1
    refine ⟨ha, h2, ?_⟩
    show cbuffer_size p.released_list ≤ cbuffer_size (remove p.free_list p.heap obj).2.1
    rw [hb]; exact h3
  | release obj =>
    obtain ⟨h1, h2, h3⟩ := hwf
    obtain ⟨ha, hb⟩ := remove_within_capacity p.released_list p.heap obj h2
    refine ⟨h1, ha, ?_⟩
    show cbuffer_size (remove p.released_list p.heap obj).2.1 ≤ cbuffer_size p.free_list
    rw [hb]; exact h3
  | write a v => exact hwf

theorem run_preserves_WithinCapacity (ops : List Op) (p : Pool) (hwf : WithinCapacity p) :
    WithinCapacity (run p ops).2 := by
  induction ops generalizing p with
  | nil => exact hwf
  | cons op ops ih => exact ih (step p op).2 (step_preserves_WithinCapacity p op hwf)

/-- Whatever `num_objects`, `o_size` and the environment are, the pool the
constructor returns has both queues within their capacity. -/
theorem ctor_WithinCapacity (env : Env) (h : Heap) (N S : Nat) (P : Pool)
    (hP : ctor env h N S = some P) : WithinCapacity P := by
  by_cases hcond : N < 1 ∨ S < 1
  · simp only [ctor, hcond, if_true, Option.some.injEq] at hP
    subst hP
    exact ⟨Nat.le_refl _, Nat.le_refl _, Nat.le_refl _⟩
  · by_cases hf : env.free_ok = true
    · by_cases hr : env.released_ok = true
      · simp only [ctor, hcond, if_false, cbuffer_init, hf, hr, if_true,
          Option.isNone_some, Bool.false_eq_true] at hP
        obtain ⟨h1, h2, h3, -⟩ := ctorLoop_queues N _ _ _ _ hP
        refine ⟨h3 (Nat.zero_le _), ?_, ?_⟩
        · rw [h1]; exact Nat.zero_le _
        · rw [h1, h2]
      · simp only [ctor, hcond, if_false, cbuffer_init, hf, hr, if_true, Option.isNone_some,
          Bool.false_eq_true, Option.isNone_none, Option.some.injEq] at hP
        subst hP
        exact ⟨Nat.zero_le _, Nat.le_refl _, Nat.zero_le _⟩
    · simp only [ctor, hcond, if_false, cbuffer_init, hf, if_true,
        Bool.false_eq_true, Option.isNone_none, Option.some.injEq] at hP
      subst hP
      exact ⟨Nat.le_refl _, Nat.le_refl _, Nat.le_refl _⟩

/-! ## Conservation in 64-bit arithmetic -/

/-- C6: for every pool (with `total` a 64-bit value), after any sequence of calls,
the sum `allocated() + freed() + released()` of the three values the counters
return, computed as the program computes it in `uint64_t` arithmetic, equals
`total`; this includes the states in which the subtraction in `allocated()` has
wrapped. -/
theorem conservation_64bit (p : Pool) (ht : p.total < 2 ^ 64) (ops : List Op) :
    Conservation64 p ∧ Conservation64 (run p ops).2 := by
  have key : ∀ q : Pool, q.total < 2 ^ 64 → Conservation64 q := by
    intro q hq
    unfold Conservation64 allocated
    simp only []
    omega
  have htot : ∀ (l : List Op) (q : Pool), (run q l).2.total = q.total := by
    intro l
    induction l with
    | nil => intro q; rfl
    | cons op l ih =>
      intro q
      have hstep : (step q op).2.total = q.total := by
        cases op with
        | alloc =>
          cases hfe : cbuffer_elems q.free_list with
          | cons y ys => simp only [step, m_alloc_from_free q y ys hfe]
          | nil =>
            cases hre : cbuffer_elems q.released_list with
            | cons y ys => simp only [step, m_alloc_from_released q y ys hfe hre]
            | nil => simp only [step, m_alloc_exhausted q hfe hre]
        | free x => rfl
        | release x => rfl
        | write a v => rfl
      exact (ih (step q op).2).trans hstep
  exact ⟨key p ht, key _ (by rw [htot]; exact ht)⟩

/-- Witness for C6 on the pool built with `N = 1`, `S = 16` after a double free and
a release of the same slot: the counters return `2^64 - 1`, 1 and 1, `total` is 1,
and the 64-bit sum is `total`. -/
theorem conservation_64bit_witness :
    (mkPool 1 16).total < 2 ^ 64
    ∧ allocated (run (mkPool 1 16)
        [Op.alloc, Op.write 4096 0, Op.free 4096, Op.free 4096, Op.release 4096]).2
      = 2 ^ 64 - 1
    ∧ Conservation64 (run (mkPool 1 16)
        [Op.alloc, Op.write 4096 0, Op.free 4096, Op.free 4096, Op.release 4096]).2
    ∧ Conservation64 (run (mkPool 3 16) [Op.alloc]).2 :=
  ⟨by decide, by decide,
   (conservation_64bit (mkPool 1 16) (by decide)
      [Op.alloc, Op.write 4096 0, Op.free 4096, Op.free 4096, Op.release 4096]).2,
   (conservation_64bit (mkPool 3 16) (by decide) [Op.alloc]).2⟩

/-! ## Further facts about double frees and the counters -/

/-- A slot whose `free` or `release` returned ok carries the magic, so handing it
back again (to either queue) before anyone writes into it returns fail. -/
theorem second_return_fails (p : Pool) (x : Nat) :
    ((m_free p x).1 = FILE_MEM_SUCCESS →
        (m_free (m_free p x).2 x).1 = FILE_MEM_FAIL
        ∧ (m_release (m_free p x).2 x).1 = FILE_MEM_FAIL)
    ∧ ((m_release p x).1 = FILE_MEM_SUCCESS →
        (m_free (m_release p x).2 x).1 = FILE_MEM_FAIL
        ∧ (m_release (m_release p x).2 x).1 = FILE_MEM_FAIL) := by
  have key : ∀ (q : Pool), read64 q.heap x = FREE_MAGIC →
      (m_free q x).1 = FILE_MEM_FAIL ∧ (m_release q x).1 = FILE_MEM_FAIL := by
    intro q hm
    constructor
    · apply retcode_fail_of_not_success
      intro hs
      exact ((remove_success_iff q.free_list q.heap x).mp hs).2.2 hm
    · apply retcode_fail_of_not_success
      intro hs
      exact ((remove_success_iff q.released_list q.heap x).mp hs).2.2 hm
  constructor
  · intro hs
    apply key
    rw [(m_free_success_elems p x hs).2]
    exact read64_write64_magic p.heap x
  · intro hs
    apply key
    rw [(m_release_success_elems p x hs).2]
    exact read64_write64_magic p.heap x

/-- Whenever the counter bound holds (and `total` is a 64-bit value), the three
counters add up to `total`. -/
theorem conservation_of_counter_bound (p : Pool) (hb : CounterBound p)
    (ht : p.total < 2 ^ 64) : Conservation p := by
  unfold CounterBound at hb
  unfold Conservation allocated
  simp only []
  have h1 : (released p + freed p) % 2 ^ 64 = released p + freed p :=
    Nat.mod_eq_of_lt (by omega)
  rw [h1]
  have h2 : (p.total + 2 ^ 64 - (released p + freed p)) % 2 ^ 64
      = p.total - (released p + freed p) := by
    have : p.total + 2 ^ 64 - (released p + freed p)
        = (p.total - (released p + freed p)) + 2 ^ 64 := by omega
    rw [this, Nat.add_mod_right]
    exact Nat.mod_eq_of_lt (by omega)
  rw [h2]
  omega

/-- Witness for `conservation_of_counter_bound` on the pool built with `N = 3`,
`S = 16` after one alloc. -/
theorem conservation_of_counter_bound_witness :
    CounterBound (run (mkPool 3 16) [Op.alloc]).2
    ∧ Conservation (run (mkPool 3 16) [Op.alloc]).2 :=
  ⟨by unfold CounterBound; decide,
   conservation_of_counter_bound _ (by unfold CounterBound; decide) (by decide)⟩

/-! ## The degenerate pool -/

/-- A pool without queues stays without queues, refuses every call and keeps its
heap apart from the callers' own stores. -/
theorem step_without_queues (p : Pool) (op : Op)
    (hf : p.free_list = none) (hr : p.released_list = none) :
    (step p op).2.free_list = none ∧ (step p op).2.released_list = none
      ∧ (step p op).2.total = p.total ∧ (step p op).2.datapool = p.datapool
      ∧ AllRefused [op] [(step p op).1] := by
  rcases p with ⟨dp, tot, fl, rl, os, hp⟩
  simp only at hf hr
  subst hf hr
  cases op with
  | alloc => simp [step, m_alloc, cbuffer_read, AllRefused]
  | free obj =>
    by_cases h0 : obj = nullptr <;>
      simp [step, m_free, remove, cbuffer_write, AllRefused, h0]
  | release obj =>
    by_cases h0 : obj = nullptr <;>
      simp [step, m_release, remove, cbuffer_write, AllRefused, h0]
  | write a v => simp [step, AllRefused]

theorem allRefused_cons (op : Op) (r : Res) (ops : List Op) (rs : List Res)
    (h1 : AllRefused [op] [r]) (h2 : AllRefused ops rs) :
    AllRefused (op :: ops) (r :: rs) := by
  cases op <;> simp_all [AllRefused]

theorem run_without_queues (ops : List Op) (p : Pool)
    (hf : p.free_list = none) (hr : p.released_list = none) :
    (run p ops).2.free_list = none ∧ (run p ops).2.released_list = none
      ∧ (run p ops).2.total = p.total ∧ (run p ops).2.datapool = p.datapool
      ∧ AllRefused ops (run p ops).1 := by
  induction ops generalizing p with
  | nil => exact ⟨hf, hr, rfl, rfl, trivial⟩
  | cons op ops ih =>
    obtain ⟨h1, h2, h3, h4, h5⟩ := step_without_queues p op hf hr
    obtain ⟨i1, i2, i3, i4, i5⟩ := ih (step p op).2 h1 h2
    refine ⟨i1, i2, i3.trans h3, i4.trans h4, ?_⟩
    exact allRefused_cons op _ ops _ h5 i5

theorem counters_without_queues (p : Pool)
    (hf : p.free_list = none) (hr : p.released_list = none) :
    freed p = 0 ∧ released p = 0 ∧ allocated p = p.total % 2 ^ 64 := by
  refine ⟨by simp [freed, hf, cbuffer_used], by simp [released, hr, cbuffer_used], ?_⟩
  simp [allocated, freed, released, hf, hr, cbuffer_used]

/-- C12: a pool constructed with `N = 0` or `S = 0` is the degenerate pool; along
every later sequence of events each `alloc` returns null (and each `free` /
`release` fails), and after it `freed() = released() = allocated() = 0`. -/
theorem zero_sized_ctor_degenerate (env : Env) (h : Heap) (N S : Nat)
    (hz : N = 0 ∨ S = 0) :
    ctor env h N S = some (degenerate h)
    ∧ ∀ ops : List Op,
        AllRefused ops (run (degenerate h) ops).1
        ∧ (m_alloc (run (degenerate h) ops).2).1 = nullptr
        ∧ freed (run (degenerate h) ops).2 = 0
        ∧ released (run (degenerate h) ops).2 = 0
        ∧ allocated (run (degenerate h) ops).2 = 0 := by
  constructor
  · have hcond : N < 1 ∨ S < 1 := by omega
    simp only [ctor, hcond, if_true]
  · intro ops
    obtain ⟨h1, h2, h3, -, h5⟩ := run_without_queues ops (degenerate h) rfl rfl
    obtain ⟨c1, c2, c3⟩ := counters_without_queues (run (degenerate h) ops).2 h1 h2
    refine ⟨h5, ?_, c1, c2, ?_⟩
    · rw [m_alloc_exhausted _ (by rw [h1]; rfl) (by rw [h2]; rfl)]
    · rw [c3, h3]; rfl

/-- Witness for C12: `N = 0`, `S = 16` in the environment of the concrete scenarios,
followed by an alloc, a free and a release. -/
theorem zero_sized_ctor_degenerate_witness :
    ctor env0 heap0 0 16 = some (degenerate heap0)
    ∧ (run (degenerate heap0) [Op.alloc, Op.free 4096, Op.release 4096]).1
        = [Res.ptr nullptr, Res.code FILE_MEM_FAIL, Res.code FILE_MEM_FAIL]
    ∧ allocated (run (degenerate heap0) [Op.alloc, Op.free 4096, Op.release 4096]).2 = 0 :=
  ⟨(zero_sized_ctor_degenerate env0 heap0 0 16 (Or.inl rfl)).1,
   by decide,
   ((zero_sized_ctor_degenerate env0 heap0 0 16 (Or.inl rfl)).2
      [Op.alloc, Op.free 4096, Op.release 4096]).2.2.2.2⟩

/-! ## Release mirrors free -/

/-- C14: `release(x)` on a pool returns the code that `free(x)` returns on the pool
with the two queues exchanged, and the resulting pool is the pool resulting from
that `free` with the queues exchanged back (same heap, same `total`); the same
holds with the roles of `free` and `release` exchanged. -/
theorem m_release_mirrors_m_free (p : Pool) (x : Nat) :
    (m_release p x).1 = (m_free (swapQueues p) x).1
    ∧ (m_release p x).2 = swapQueues (m_free (swapQueues p) x).2
    ∧ (m_free p x).1 = (m_release (swapQueues p) x).1
    ∧ (m_free p x).2 = swapQueues (m_release (swapQueues p) x).2
    ∧ (m_release p x).2.heap = (m_free (swapQueues p) x).2.heap
    ∧ (m_release p x).2.total = (m_free (swapQueues p) x).2.total :=
  ⟨rfl, rfl, rfl, rfl, rfl, rfl⟩

/-! ## Check order of the shared return routine -/

/-- C17: the source's push-then-check `remove` and the check-then-push variant return
the same code for every queue, heap and slot. Their results (queue and heap) are
equal except when the slot is non-null, the queue has room and the slot already
carries `FREE_MAGIC`: there both return fail, but the variant leaves the queue as
it was while the source leaves the slot appended to it (heap unchanged). -/
theorem remove_vs_check_then_push (cb : Option CircularBuffer) (h : Heap) (obj : Nat) :
    (remove cb h obj).1 = (remove_check_then_push cb h obj).1
    ∧ (¬ (obj ≠ nullptr ∧ cbuffer_used cb < cbuffer_size cb ∧ read64 h obj = FREE_MAGIC) →
        remove cb h obj = remove_check_then_push cb h obj)
    ∧ (obj ≠ nullptr ∧ cbuffer_used cb < cbuffer_size cb ∧ read64 h obj = FREE_MAGIC →
        remove_check_then_push cb h obj = (FILE_MEM_FAIL, cb, h)
        ∧ (remove cb h obj).1 = FILE_MEM_FAIL
        ∧ cbuffer_elems (remove cb h obj).2.1 = cbuffer_elems cb ++ [obj]
        ∧ cbuffer_size (remove cb h obj).2.1 = cbuffer_size cb
        ∧ (remove cb h obj).2.2 = h
        ∧ (remove cb h obj).2.1 ≠ (remove_check_then_push cb h obj).2.1) := by
  by_cases h0 : obj = nullptr
  · simp [remove, remove_check_then_push, h0]
  · have hw := cbuffer_write_success_iff cb obj
    have hsame := cbuffer_write_fail_same cb obj
    have hel := cbuffer_write_success_elems cb obj
    by_cases hm : read64 h obj = FREE_MAGIC
    · rcases hcw : cbuffer_write cb obj with ⟨c, cb1⟩
      rw [hcw] at hw hsame hel
      cases c with
      | fail =>
        have hcb : cb1 = cb := hsame rfl
        have hfull : ¬ cbuffer_used cb < cbuffer_size cb := fun hlt => by
          have := hw.mpr hlt
          simp at this
        simp [remove, remove_check_then_push, h0, hm, hcw, hcb, hfull]
      | success =>
        have hroom : cbuffer_used cb < cbuffer_size cb := hw.mp rfl
        obtain ⟨he, hs, -⟩ := hel rfl
        simp only [remove, remove_check_then_push, h0, hm, hcw, if_true, if_false,
          ne_eq, not_false_eq_true, hroom, and_self, not_true_eq_false, false_implies,
          true_implies, true_and, he, hs]
        intro heq
        have : cbuffer_elems cb1 = cbuffer_elems cb := by rw [heq]
        rw [he] at this
        have hlen := congrArg List.length this
        simp at hlen
    · rcases hcw : cbuffer_write cb obj with ⟨c, cb1⟩
      cases c <;> simp [remove, remove_check_then_push, h0, hm, hcw]

/-- Witness for C17 on the pool built with `N = 2`, `S = 16` after one alloc: the
handed-out slot still carries the magic and the Free queue has room, so the source
appends it while the variant does not. -/
theorem remove_vs_check_then_push_witness :
    (remove (m_alloc (mkPool 2 16)).2.free_list (m_alloc (mkPool 2 16)).2.heap 4096).1
        = FILE_MEM_FAIL
    ∧ cbuffer_elems (remove (m_alloc (mkPool 2 16)).2.free_list
          (m_alloc (mkPool 2 16)).2.heap 4096).2.1 = [4112, 4096]
    ∧ cbuffer_elems (remove_check_then_push (m_alloc (mkPool 2 16)).2.free_list
          (m_alloc (mkPool 2 16)).2.heap 4096).2.1 = [4112] :=
  ⟨((remove_vs_check_then_push _ _ 4096).2.2 (by decide)).2.1,
   by decide, by decide⟩

/-! ## What `alloc` reads and writes -/

/-- C19: `alloc` does not look at slot contents. Two pools with the same Free and
Released queues, whatever their heaps, return the same slot reference and are left
with the same queues; replacing the heap of a pool changes neither; so a popped
slot whose first 8 bytes are not `FREE_MAGIC` is returned all the same (only the
"Allocation errors!" report depends on the heap). -/
theorem m_alloc_ignores_heap (p q : Pool)
    (hf : p.free_list = q.free_list) (hr : p.released_list = q.released_list) :
    (m_alloc p).1 = (m_alloc q).1
    ∧ (m_alloc p).2.free_list = (m_alloc q).2.free_list
    ∧ (m_alloc p).2.released_list = (m_alloc q).2.released_list
    ∧ (∀ h2 : Heap, (m_alloc { p with heap := h2 }).1 = (m_alloc p).1)
    ∧ (∀ x xs, cbuffer_elems p.free_list = x :: xs → read64 p.heap x ≠ FREE_MAGIC →
        (m_alloc p).1 = x ∧ allocLogsCorruption p.heap x = true) := by
  have key : ∀ a b : Pool, a.free_list = b.free_list →
      a.released_list = b.released_list →
      (m_alloc a).1 = (m_alloc b).1
      ∧ (m_alloc a).2.free_list = (m_alloc b).2.free_list
      ∧ (m_alloc a).2.released_list = (m_alloc b).2.released_list := by
    intro a b hf hr
    cases hfe : cbuffer_elems b.free_list with
    | cons y ys =>
      rw [m_alloc_from_free a y ys (by rw [hf]; exact hfe), m_alloc_from_free b y ys hfe]
      exact ⟨rfl, by simp only [hf], hr⟩
    | nil =>
      cases hre : cbuffer_elems b.released_list with
      | cons y ys =>
        rw [m_alloc_from_released a y ys (by rw [hf]; exact hfe) (by rw [hr]; exact hre),
          m_alloc_from_released b y ys hfe hre]
        exact ⟨rfl, hf, by simp only [hr]⟩
      | nil =>
        rw [m_alloc_exhausted a (by rw [hf]; exact hfe) (by rw [hr]; exact hre),
          m_alloc_exhausted b hfe hre]
        exact ⟨rfl, hf, hr⟩
  refine ⟨(key p q hf hr).1, (key p q hf hr).2.1, (key p q hf hr).2.2, ?_, ?_⟩
  · intro h2
    exact (key { p with heap := h2 } p rfl rfl).1
  · intro x xs hx hm
    rw [m_alloc_from_free p x xs hx]
    exact ⟨rfl, by simp [allocLogsCorruption, hm]⟩

/-- Witness for C19: the pool built with `N = 2`, `S = 16` and the same pool after a
stray store has destroyed the magic of its first slot return the same slot. -/
theorem m_alloc_ignores_heap_witness :
    read64 (run (mkPool 2 16) [Op.write 4096 0]).2.heap 4096 ≠ FREE_MAGIC
    ∧ (m_alloc (run (mkPool 2 16) [Op.write 4096 0]).2).1 = (m_alloc (mkPool 2 16)).1
    ∧ (m_alloc (mkPool 2 16)).1 = 4096 :=
  ⟨by decide,
   (m_alloc_ignores_heap (run (mkPool 2 16) [Op.write 4096 0]).2 (mkPool 2 16) rfl rfl).1,
   by decide⟩

/-- C15: `alloc` changes no byte of the heap and leaves `total` (and the other
members) unchanged. When it returns a non-null slot it has removed exactly that
one entry, the head, from exactly one queue, the other queue being untouched, and
on a pool satisfying the magic invariant the slot still carries `FREE_MAGIC`. When
both queues are empty, and on a pool whose queues hold no null reference whenever
it returns null, it has changed nothing at all. -/
theorem m_alloc_frame (p : Pool) :
    (m_alloc p).2.heap = p.heap
    ∧ (m_alloc p).2.total = p.total
    ∧ (m_alloc p).2.datapool = p.datapool
    ∧ (m_alloc p).2.obj_size = p.obj_size
    ∧ cbuffer_size (m_alloc p).2.free_list = cbuffer_size p.free_list
    ∧ cbuffer_size (m_alloc p).2.released_list = cbuffer_size p.released_list
    ∧ ((m_alloc p).1 ≠ nullptr →
        (cbuffer_elems p.free_list
            = (m_alloc p).1 :: cbuffer_elems (m_alloc p).2.free_list
          ∧ (m_alloc p).2.released_list = p.released_list)
        ∨ (cbuffer_elems p.released_list
            = (m_alloc p).1 :: cbuffer_elems (m_alloc p).2.released_list
          ∧ (m_alloc p).2.free_list = p.free_list))
    ∧ ((m_alloc p).1 ≠ nullptr → MagicInvariant p →
        read64 (m_alloc p).2.heap (m_alloc p).1 = FREE_MAGIC)
    ∧ (cbuffer_elems p.free_list = [] → cbuffer_elems p.released_list = [] →
        m_alloc p = (nullptr, p))
    ∧ (NoNull p → (m_alloc p).1 = nullptr → (m_alloc p).2 = p) := by
  cases hfe : cbuffer_elems p.free_list with
  | cons y ys =>
    rw [m_alloc_from_free p y ys hfe]
    refine ⟨rfl, rfl, rfl, rfl, rfl, rfl, fun _ => Or.inl ⟨rfl, rfl⟩, ?_, ?_, ?_⟩
    · intro _ hinv
      exact hinv y (by simp [hfe])
    · intro hcontra; cases hcontra
    · intro hnn hnull
      exact absurd hnull (hnn y (by simp [hfe]))
  | nil =>
    cases hre : cbuffer_elems p.released_list with
    | cons y ys =>
      rw [m_alloc_from_released p y ys hfe hre]
      refine ⟨rfl, rfl, rfl, rfl, rfl, rfl, fun _ => Or.inr ⟨rfl, rfl⟩, ?_, ?_, ?_⟩
      · intro _ hinv
        exact hinv y (by simp [hre])
      · intro _ hcontra; cases hcontra
      · intro hnn hnull
        exact absurd hnull (hnn y (by simp [hre]))
    | nil =>
      rw [m_alloc_exhausted p hfe hre]
      refine ⟨rfl, rfl, rfl, rfl, rfl, rfl, fun hne => absurd rfl hne,
        fun hne => absurd rfl hne, fun _ _ => rfl, fun _ _ => rfl⟩

/-- Witness for C15 on the pool built with `N = 2`, `S = 16`: the first alloc pops
the head of Free, the slot still carrying the magic; on the emptied pool the third
alloc returns null and changes nothing. -/
theorem m_alloc_frame_witness :
    (m_alloc (mkPool 2 16)).1 ≠ nullptr
    ∧ MagicInvariant (mkPool 2 16)
    ∧ read64 (m_alloc (mkPool 2 16)).2.heap (m_alloc (mkPool 2 16)).1 = FREE_MAGIC
    ∧ NoNull (allocN 2 (mkPool 2 16))
    ∧ (m_alloc (allocN 2 (mkPool 2 16))).1 = nullptr
    ∧ (m_alloc (allocN 2 (mkPool 2 16))).2 = allocN 2 (mkPool 2 16) :=
  ⟨by decide, by unfold MagicInvariant; decide,
   (m_alloc_frame (mkPool 2 16)).2.2.2.2.2.2.2.1 (by decide)
     (by unfold MagicInvariant; decide),
   by unfold NoNull; decide, by decide,
   (m_alloc_frame (allocN 2 (mkPool 2 16))).2.2.2.2.2.2.2.2.2
     (by unfold NoNull; decide) (by decide)⟩

/-! ## Queue-full cannot happen under the data-model invariants -/

/-- C16: in a pool state satisfying invariants 1 to 5 of the data model (with
`total = N` and queues of capacity `N`), for every slot `x` that is in use, the
push of `x` succeeds on the Free and on the Released queue, so `free(x)` and
`release(x)` never fail for lack of room: if one of them fails, `x` is null or
already carries `FREE_MAGIC`. -/
theorem queue_full_unreachable (p : Pool) (N x : Nat)
    (hinv : DataModelInv p N) (hx : x ∈ inUseSlots p) :
    cbuffer_used p.free_list < cbuffer_size p.free_list
    ∧ cbuffer_used p.released_list < cbuffer_size p.released_list
    ∧ (cbuffer_write p.free_list x).1 = CB_SUCCESS
    ∧ (cbuffer_write p.released_list x).1 = CB_SUCCESS
    ∧ ((m_free p x).1 = FILE_MEM_FAIL → x = nullptr ∨ read64 p.heap x = FREE_MAGIC)
    ∧ ((m_release p x).1 = FILE_MEM_FAIL → x = nullptr ∨ read64 p.heap x = FREE_MAGIC) := by
  obtain ⟨⟨htot, hcf, hcr⟩, h1, -, -, -, -⟩ := hinv
  have hpos : 0 < (inUseSlots p).length := List.length_pos_of_mem hx
  have hf : cbuffer_used p.free_list < cbuffer_size p.free_list := by
    unfold freed released at h1
    omega
  have hr : cbuffer_used p.released_list < cbuffer_size p.released_list := by
    unfold freed released at h1
    omega
  refine ⟨hf, hr, (cbuffer_write_success_iff _ x).mpr hf,
    (cbuffer_write_success_iff _ x).mpr hr, ?_, ?_⟩
  · intro hfail
    by_contra hm
    have : (m_free p x).1 = RetCode.success :=
      (remove_success_iff p.free_list p.heap x).mpr
        ⟨fun h0 => hm (Or.inl h0), hf, fun h1 => hm (Or.inr h1)⟩
    rw [this] at hfail
    cases hfail
  · intro hfail
    by_contra hm
    have : (m_release p x).1 = RetCode.success :=
      (remove_success_iff p.released_list p.heap x).mpr
        ⟨fun h0 => hm (Or.inl h0), hr, fun h1 => hm (Or.inr h1)⟩
    rw [this] at hfail
    cases hfail

/-- Witness for C16: the pool built with `N = 2`, `S = 16` after one alloc satisfies
the data-model invariants and has the slot at 4096 in use. -/
theorem queue_full_unreachable_witness :
    DataModelInv (m_alloc (mkPool 2 16)).2 2
    ∧ 4096 ∈ inUseSlots (m_alloc (mkPool 2 16)).2
    ∧ (cbuffer_write (m_alloc (mkPool 2 16)).2.free_list 4096).1 = CB_SUCCESS
    ∧ (cbuffer_write (m_alloc (mkPool 2 16)).2.released_list 4096).1 = CB_SUCCESS :=
  have hinv : DataModelInv (m_alloc (mkPool 2 16)).2 2 :=
    ⟨by decide, by decide, by decide, by decide, by unfold MagicInvariant; decide,
     by decide⟩
  ⟨hinv, by decide,
   (queue_full_unreachable _ 2 4096 hinv (by decide)).2.2.1,
   (queue_full_unreachable _ 2 4096 hinv (by decide)).2.2.2.1⟩

/-! ## The magic consists of equal bytes -/

theorem read64_eq_magic_iff (h : Heap) (p : Nat) :
    read64 h p = FREE_MAGIC ↔ ∀ k, k < 8 → h (p + k) % 256 = 37 := by
  have b : ∀ k, h (p + k) % 256 < 256 := fun k => Nat.mod_lt _ (by decide)
  have b0 := b 0; have b1 := b 1; have b2 := b 2; have b3 := b 3
  have b4 := b 4; have b5 := b 5; have b6 := b 6; have b7 := b 7
  simp only [Nat.add_zero] at b0
  constructor
  · intro hm k hk
    simp only [read64, FREE_MAGIC] at hm
    norm_num at hm
    interval_cases k
    · simp only [Nat.add_zero]; omega
    all_goals omega
  · intro hall
    have e0 := hall 0 (by decide); have e1 := hall 1 (by decide)
    have e2 := hall 2 (by decide); have e3 := hall 3 (by decide)
    have e4 := hall 4 (by decide); have e5 := hall 5 (by decide)
    have e6 := hall 6 (by decide); have e7 := hall 7 (by decide)
    simp only [Nat.add_zero] at e0
    simp only [read64, e0, e1, e2, e3, e4, e5, e6, e7]
    decide

theorem magic_byte (j : Nat) (hj : j < 8) : (FREE_MAGIC / 256 ^ j) % 256 = 37 := by
  interval_cases j <;> decide

/-- Stamping the magic anywhere never destroys a magic that is already in place,
even when the two 8-byte ranges overlap. -/
theorem write64_magic_keeps_magic (h : Heap) (p q : Nat) (hm : read64 h p = FREE_MAGIC) :
    read64 (write64 h q FREE_MAGIC) p = FREE_MAGIC := by
  rw [read64_eq_magic_iff] at hm ⊢
  intro k hk
  unfold write64
  by_cases hin : q ≤ p + k ∧ p + k < q + 8
  · rw [if_pos hin, magic_byte _ (by omega)]
  · rw [if_neg hin]; exact hm k hk

theorem stamped_keeps_magic (base S : Nat) :
    ∀ (n i : Nat) (h : Heap) (x : Nat), read64 h x = FREE_MAGIC →
      read64 (stamped base S h i n) x = FREE_MAGIC := by
  intro n
  induction n with
  | zero => intro i h x hm; exact hm
  | succ n ih =>
    intro i h x hm
    rw [stamped_succ]
    exact ih (i + 1) _ x (write64_magic_keeps_magic h x _ hm)

theorem stamped_stamps (base S : Nat) :
    ∀ (n i : Nat) (h : Heap) (j : Nat), i ≤ j → j < i + n →
      read64 (stamped base S h i n) (base + j * S) = FREE_MAGIC := by
  intro n
  induction n with
  | zero => intro i h j h1 h2; omega
  | succ n ih =>
    intro i h j h1 h2
    rw [stamped_succ]
    by_cases hji : j = i
    · subst hji
      exact stamped_keeps_magic base S n (j + 1) _ _ (read64_write64_magic h _)
    · exact ih (i + 1) _ j (by omega) (by omega)

/-! ## The constructor's postcondition -/

/-- Construction postcondition below the wrap of the loop counter: for
`1 ≤ N < 2^32`, `S ≥ 1`, a slab that fits the address space and both queues
obtained, the constructor returns with `total = N`, `freed() = N`,
`released() = 0`, `allocated() = 0`, the Free queue holding exactly the pairwise
distinct references `slab + i·S`, `i = 0 … N-1`, in increasing order of `i`, each
with `FREE_MAGIC` in its first 8 bytes. -/
theorem ctor_postcondition_below_two_pow_32 (env : Env) (h : Heap) (N S : Nat)
    (hN1 : 1 ≤ N) (hN : N < 2 ^ 32) (hS : 1 ≤ S)
    (hf : env.free_ok = true) (hr : env.released_ok = true)
    (hslab : env.slab + N * S ≤ 2 ^ 64) :
    ∃ P, ctor env h N S = some P
      ∧ P.total = N ∧ freed P = N ∧ released P = 0 ∧ allocated P = 0
      ∧ P.datapool = env.slab ∧ P.obj_size = S
      ∧ cbuffer_size P.free_list = N ∧ cbuffer_size P.released_list = N
      ∧ cbuffer_elems P.free_list = (List.range' 0 N).map (fun i => env.slab + i * S)
      ∧ cbuffer_elems P.released_list = []
      ∧ (cbuffer_elems P.free_list).Nodup
      ∧ MagicInvariant P := by
  refine ⟨_, ctor_installs env h N S hN1 hN hS hf hr hslab, rfl, ?_, rfl, ?_, rfl, rfl,
    rfl, rfl, rfl, rfl, ?_, ?_⟩
  · simp [freed, cbuffer_used]
  · simp only [allocated, freed, released, cbuffer_used, List.length_map,
      List.length_range', List.length_nil]
    omega
  · simp only [cbuffer_elems]
    refine List.Nodup.map ?_ (List.nodup_range' 0 N)
    intro a b hab
    simp only at hab
    have h1 : a * S = b * S := by omega
    exact Nat.eq_of_mul_eq_mul_right (by omega) h1
  · intro x hx
    simp only [cbuffer_elems, List.append_nil, List.mem_map, List.mem_range'_1] at hx
    obtain ⟨j, ⟨-, hj⟩, rfl⟩ := hx
    exact stamped_stamps env.slab S N 0 _ j (Nat.zero_le _) (by omega)

/-- Witness for the construction postcondition at `N = 3`, `S = 16`. -/
theorem ctor_postcondition_below_two_pow_32_witness :
    ∃ P, ctor env0 heap0 3 16 = some P
      ∧ P.total = 3 ∧ freed P = 3 ∧ released P = 0 ∧ allocated P = 0
      ∧ P.datapool = env0.slab ∧ P.obj_size = 16
      ∧ cbuffer_size P.free_list = 3 ∧ cbuffer_size P.released_list = 3
      ∧ cbuffer_elems P.free_list = (List.range' 0 3).map (fun i => env0.slab + i * 16)
      ∧ cbuffer_elems P.released_list = []
      ∧ (cbuffer_elems P.free_list).Nodup
      ∧ MagicInvariant P :=
  ctor_postcondition_below_two_pow_32 env0 heap0 3 16 (by decide) (by decide) (by decide)
    rfl rfl (by decide)

/-- C11 (evaluation of the code at `N = 1`, `S = 4`): the constructor only refuses
sizes below 1, so it builds a live pool: `alloc` returns the slot at 4096 and a
`free` of it returns ok. Stamping the 8-byte magic on the 4-byte slot has
overwritten the bytes 4100 … 4103, which lie behind the 4-byte slab. -/
theorem small_slot_pool_is_live :
    (run (mkPool 1 4) [Op.alloc, Op.write 4096 0, Op.free 4096]).1
      = [Res.ptr 4096, Res.unit, Res.code FILE_MEM_SUCCESS]
    ∧ (4096 : Nat) ≠ nullptr
    ∧ (mkPool 1 4).datapool = 4096 ∧ (mkPool 1 4).total = 1 ∧ (mkPool 1 4).obj_size = 4
    ∧ heap0 4100 = 0xAA ∧ (mkPool 1 4).heap 4100 = 0x25
    ∧ heap0 4103 = 0xAA ∧ (mkPool 1 4).heap 4103 = 0x25 := by
  decide

/-! ## FIFO reuse -/

/-- FIFO reuse: when `free(x)` returns ok while the Free queue holds the entries
`q₁ … q_k`, the next `k` allocs return `q₁ … q_k` in this order and the alloc
after them returns `x`. -/
theorem fifo_reuse (p : Pool) (x : Nat) (hs : (m_free p x).1 = FILE_MEM_SUCCESS) :
    (∀ j (hj : j < (cbuffer_elems p.free_list).length),
        (m_alloc (allocN j (m_free p x).2)).1 = (cbuffer_elems p.free_list)[j])
    ∧ (m_alloc (allocN (freed p) (m_free p x).2)).1 = x := by
  have he := (m_free_success_elems p x hs).1
  constructor
  · intro j hj
    rw [m_alloc_allocN_nth _ _ he j (by simp; omega)]
    exact List.getElem_append_left hj
  · have hlen : freed p = (cbuffer_elems p.free_list).length := cbuffer_used_eq_length _
    rw [hlen, m_alloc_allocN_nth _ _ he _ (by simp)]
    simp

/-- Witness for `fifo_reuse` on the pool built with `N = 3`, `S = 16` after the first
slot has been handed out and written to. -/
theorem fifo_reuse_witness :
    (m_free (run (mkPool 3 16) [Op.alloc, Op.write 4096 0]).2 4096).1 = FILE_MEM_SUCCESS
    ∧ (run (m_free (run (mkPool 3 16) [Op.alloc, Op.write 4096 0]).2 4096).2
        [Op.alloc, Op.alloc]).1 = [Res.ptr 4112, Res.ptr 4128]
    ∧ (m_alloc (allocN (freed (run (mkPool 3 16) [Op.alloc, Op.write 4096 0]).2)
        (m_free (run (mkPool 3 16) [Op.alloc, Op.write 4096 0]).2 4096).2)).1 = 4096 :=
  ⟨by decide, by decide, (fifo_reuse _ 4096 (by decide)).2⟩

theorem m_alloc_members (p : Pool) :
    (m_alloc p).2.datapool = p.datapool ∧ (m_alloc p).2.total = p.total
      ∧ (m_alloc p).2.obj_size = p.obj_size ∧ (m_alloc p).2.heap = p.heap := by
  cases hfe : cbuffer_elems p.free_list with
  | cons y ys => rw [m_alloc_from_free p y ys hfe]; exact ⟨rfl, rfl, rfl, rfl⟩
  | nil =>
    cases hre : cbuffer_elems p.released_list with
    | cons y ys => rw [m_alloc_from_released p y ys hfe hre]; exact ⟨rfl, rfl, rfl, rfl⟩
    | nil => rw [m_alloc_exhausted p hfe hre]; exact ⟨rfl, rfl, rfl, rfl⟩

theorem step_members (p : Pool) (op : Op) :
    (step p op).2.datapool = p.datapool ∧ (step p op).2.total = p.total
      ∧ (step p op).2.obj_size = p.obj_size := by
  cases op with
  | alloc => exact ⟨(m_alloc_members p).1, (m_alloc_members p).2.1, (m_alloc_members p).2.2.1⟩
  | free x => exact ⟨rfl, rfl, rfl⟩
  | release x => exact ⟨rfl, rfl, rfl⟩
  | write a v => exact ⟨rfl, rfl, rfl⟩

theorem slotRefs_step (p : Pool) (op : Op) : slotRefs (step p op).2 = slotRefs p := by
  obtain ⟨h1, h2, h3⟩ := step_members p op
  simp only [slotRefs, h1, h2, h3]

theorem slotRefs_nonnull (p : Pool) (hbase : 0 < p.datapool) (x : Nat)
    (hx : x ∈ slotRefs p) : x ≠ nullptr := by
  simp only [slotRefs, List.mem_map, List.mem_range] at hx
  obtain ⟨i, -, rfl⟩ := hx
  show p.datapool + i * p.obj_size ≠ 0
  omega

theorem slotRefs_nodup (p : Pool) (hS : 1 ≤ p.obj_size) : (slotRefs p).Nodup := by
  refine List.Nodup.map ?_ (List.nodup_range p.total)
  intro a b hab
  simp only at hab
  have h1 : a * p.obj_size = b * p.obj_size := by omega
  exact Nat.eq_of_mul_eq_mul_right (by omega) h1

theorem partition_count (p : Pool) (held : List Nat) (hpart : Partition p held) :
    freed p + released p + held.length = p.total := by
  have hlen := hpart.2.2.length_eq
  simp only [List.length_append, slotRefs, List.length_map, List.length_range] at hlen
  rw [freed, released, cbuffer_used_eq_length, cbuffer_used_eq_length]
  exact hlen

theorem remove_success_size (cb : Option CircularBuffer) (h : Heap) (obj : Nat)
    (hs : (remove cb h obj).1 = RetCode.success) :
    cbuffer_size (remove cb h obj).2.1 = cbuffer_size cb
      ∧ cbuffer_elems (remove cb h obj).2.1 = cbuffer_elems cb ++ [obj] := by
  obtain ⟨hq, -⟩ := remove_success_effect cb h obj hs
  have hroom := ((remove_success_iff cb h obj).mp hs).2.1
  obtain ⟨he, hsz, -⟩ := cbuffer_write_success_elems cb obj
    ((cbuffer_write_success_iff cb obj).mpr hroom)
  rw [hq]
  exact ⟨hsz, he⟩

/-- One allowed event keeps the partition, and if it is a `free` or a `release` it
returns ok. -/
theorem step_keeps_partition (p : Pool) (held : List Nat) (op : Op)
    (hbase : 0 < p.datapool) (hpart : Partition p held) (hop : OpAllowed p held op) :
    Partition (step p op).2 (heldAfterStep p held op)
      ∧ AllReturnsOk [op] [(step p op).1] := by
  obtain ⟨hcf, hcr, hperm⟩ := hpart
  have hcount := partition_count p held ⟨hcf, hcr, hperm⟩
  cases op with
  | write a v => exact ⟨⟨hcf, hcr, hperm⟩, trivial⟩
  | alloc =>
    refine ⟨?_, trivial⟩
    cases hfe : cbuffer_elems p.free_list with
    | cons y ys =>
      have hy : y ≠ nullptr := slotRefs_nonnull p hbase y
        (hperm.subset (by simp [hfe]))
      simp only [step, heldAfterStep, m_alloc_from_free p y ys hfe, hy, if_false]
      refine ⟨hcf, hcr, ?_⟩
      show (ys ++ cbuffer_elems p.released_list ++ y :: held).Perm (slotRefs p)
      refine List.Perm.trans ?_ hperm
      rw [hfe]
      exact List.perm_middle
    | nil =>
      cases hre : cbuffer_elems p.released_list with
      | cons y ys =>
        have hy : y ≠ nullptr := slotRefs_nonnull p hbase y
          (hperm.subset (by simp [hre]))
        simp only [step, heldAfterStep, m_alloc_from_released p y ys hfe hre, hy, if_false]
        refine ⟨hcf, hcr, ?_⟩
        show (cbuffer_elems p.free_list ++ ys ++ y :: held).Perm (slotRefs p)
        refine List.Perm.trans ?_ hperm
        rw [hfe, hre]
        exact List.perm_middle
      | nil =>
        simp only [step, heldAfterStep, m_alloc_exhausted p hfe hre, if_true]
        exact ⟨hcf, hcr, hperm⟩
  | free x =>
    obtain ⟨hx, hm⟩ := hop
    have hx0 : x ≠ nullptr := slotRefs_nonnull p hbase x
      (hperm.subset (List.mem_append_right _ hx))
    have hpos : 0 < held.length := List.length_pos_of_mem hx
    have hroom : cbuffer_used p.free_list < cbuffer_size p.free_list := by
      unfold freed released at hcount
      omega
    have hs : (remove p.free_list p.heap x).1 = RetCode.success :=
      (remove_success_iff p.free_list p.heap x).mpr ⟨hx0, hroom, hm⟩
    obtain ⟨hsz, hel⟩ := remove_success_size p.free_list p.heap x hs
    refine ⟨⟨?_, hcr, ?_⟩, ?_⟩
    · show cbuffer_size (remove p.free_list p.heap x).2.1 = p.total
      rw [hsz]; exact hcf
    · show (cbuffer_elems (remove p.free_list p.heap x).2.1
          ++ cbuffer_elems p.released_list ++ held.erase x).Perm (slotRefs p)
      rw [hel]
      refine List.Perm.trans ?_ hperm
      have h1 : (cbuffer_elems p.released_list ++ held).Perm
          (x :: (cbuffer_elems p.released_list ++ held.erase x)) :=
        (List.Perm.append_left _ (List.perm_cons_erase hx)).trans List.perm_middle
      simp only [List.append_assoc, List.singleton_append]
      exact (List.Perm.append_left _ h1).symm
    · show Res.code (remove p.free_list p.heap x).1 = Res.code FILE_MEM_SUCCESS ∧ True
      rw [hs]; exact ⟨rfl, trivial⟩
  | release x =>
    obtain ⟨hx, hm⟩ := hop
    have hx0 : x ≠ nullptr := slotRefs_nonnull p hbase x
      (hperm.subset (List.mem_append_right _ hx))
    have hpos : 0 < held.length := List.length_pos_of_mem hx
    have hroom : cbuffer_used p.released_list < cbuffer_size p.released_list := by
      unfold freed released at hcount
      omega
    have hs : (remove p.released_list p.heap x).1 = RetCode.success :=
      (remove_success_iff p.released_list p.heap x).mpr ⟨hx0, hroom, hm⟩
    obtain ⟨hsz, hel⟩ := remove_success_size p.released_list p.heap x hs
    refine ⟨⟨hcf, ?_, ?_⟩, ?_⟩
    · show cbuffer_size (remove p.released_list p.heap x).2.1 = p.total
      rw [hsz]; exact hcr
    · show (cbuffer_elems p.free_list
          ++ cbuffer_elems (remove p.released_list p.heap x).2.1
          ++ held.erase x).Perm (slotRefs p)
      rw [hel]
      refine List.Perm.trans ?_ hperm
      simp only [List.append_assoc, List.singleton_append]
      exact (List.Perm.append_left _
        (List.Perm.append_left _ (List.perm_cons_erase hx))).symm
    · show Res.code (remove p.released_list p.heap x).1 = Res.code FILE_MEM_SUCCESS ∧ True
      rw [hs]; exact ⟨rfl, trivial⟩

theorem allReturnsOk_cons (op : Op) (r : Res) (ops : List Op) (rs : List Res)
    (h1 : AllReturnsOk [op] [r]) (h2 : AllReturnsOk ops rs) :
    AllReturnsOk (op :: ops) (r :: rs) := by
  cases op <;> simp_all [AllReturnsOk]

theorem run_keeps_partition (ops : List Op) (p : Pool) (held : List Nat)
    (hbase : 0 < p.datapool) (hpart : Partition p held) (hd : Disciplined p held ops) :
    Partition (run p ops).2 (heldAfter p held ops)
      ∧ AllReturnsOk ops (run p ops).1
      ∧ slotRefs (run p ops).2 = slotRefs p
      ∧ (run p ops).2.total = p.total := by
  induction ops generalizing p held with
  | nil => exact ⟨hpart, trivial, rfl, rfl⟩
  | cons op ops ih =>
    obtain ⟨hop, hrest⟩ := hd
    obtain ⟨hp1, hok1⟩ := step_keeps_partition p held op hbase hpart hop
    have hmem := step_members p op
    obtain ⟨i1, i2, i3, i4⟩ := ih (step p op).2 (heldAfterStep p held op)
      (by rw [hmem.1]; exact hbase) hp1 hrest
    exact ⟨i1, allReturnsOk_cons op _ ops _ hok1 i2, i3.trans (slotRefs_step p op),
      i4.trans hmem.2.1⟩

theorem disciplined_take (ops : List Op) (p : Pool) (held : List Nat)
    (hd : Disciplined p held ops) (k : Nat) : Disciplined p held (ops.take k) := by
  induction ops generalizing p held k with
  | nil => simpa using hd
  | cons op ops ih =>
    cases k with
    | zero => exact trivial
    | succ k => exact ⟨hd.1, ih _ _ hd.2 k⟩

/-- Disciplined-client partition invariant below the wrap of the loop counter: for
`1 ≤ N < 2^32`, `S ≥ 1`, a non-null slab that fits the address space and both
queues obtained, along every sequence of events in which `free` / `release` is only
called on a slot that is held (returned by `alloc` and not handed back since) and
whose first 8 bytes are not `FREE_MAGIC`, after each event every `free` / `release`
so far has returned ok and the Free queue, the Released queue and the held slots
together list each slot `slab + i·S` exactly once (so no queue holds a duplicate
and the queues are disjoint), and `allocated()` is the number of held slots. -/
theorem disciplined_clients_partition (env : Env) (h : Heap) (N S : Nat) (P : Pool)
    (hN1 : 1 ≤ N) (hN : N < 2 ^ 32) (hS : 1 ≤ S)
    (hf : env.free_ok = true) (hr : env.released_ok = true)
    (hnull : 0 < env.slab) (hslab : env.slab + N * S ≤ 2 ^ 64)
    (hP : ctor env h N S = some P)
    (ops : List Op) (hd : Disciplined P [] ops) (k : Nat) :
    AllReturnsOk (ops.take k) (run P (ops.take k)).1
    ∧ List.Perm
        (cbuffer_elems (run P (ops.take k)).2.free_list
          ++ cbuffer_elems (run P (ops.take k)).2.released_list
          ++ heldAfter P [] (ops.take k))
        ((List.range N).map (fun i => env.slab + i * S))
    ∧ (cbuffer_elems (run P (ops.take k)).2.free_list
          ++ cbuffer_elems (run P (ops.take k)).2.released_list
          ++ heldAfter P [] (ops.take k)).Nodup
    ∧ allocated (run P (ops.take k)).2 = (heldAfter P [] (ops.take k)).length := by
  obtain ⟨P2, hP2, htot, hdp, hos, hcf, hcr, hfe, hre⟩ :
      ∃ P2 : Pool, ctor env h N S = some P2 ∧ P2.total = N ∧ P2.datapool = env.slab
        ∧ P2.obj_size = S ∧ cbuffer_size P2.free_list = N
        ∧ cbuffer_size P2.released_list = N
        ∧ cbuffer_elems P2.free_list = (List.range' 0 N).map (fun i => env.slab + i * S)
        ∧ cbuffer_elems P2.released_list = [] :=
    ⟨_, ctor_installs env h N S hN1 hN hS hf hr hslab, rfl, rfl, rfl, rfl, rfl, rfl, rfl⟩
  have hPP : P2 = P := by
    rw [hP] at hP2
    exact (Option.some.inj hP2).symm
  subst hPP
  have hrefs : slotRefs P2 = (List.range N).map (fun i => env.slab + i * S) := by
    simp only [slotRefs, htot, hdp, hos]
  have hpart0 : Partition P2 [] := by
    refine ⟨by rw [hcf, htot], by rw [hcr, htot], ?_⟩
    rw [hfe, hre, hrefs, List.range_eq_range']
    simp
  obtain ⟨hpart, hok, hsr, htk⟩ := run_keeps_partition (ops.take k) P2 []
    (by rw [hdp]; exact hnull) hpart0 (disciplined_take ops P2 [] hd k)
  have hperm := hpart.2.2
  rw [hsr] at hperm
  have hnd : (slotRefs P2).Nodup := slotRefs_nodup P2 (by rw [hos]; exact hS)
  have hcount := partition_count _ _ hpart
  refine ⟨hok, by rw [← hrefs]; exact hperm, hperm.nodup_iff.mpr hnd, ?_⟩
  rw [htk, htot] at hcount
  simp only [allocated, htk, htot]
  omega

/-- Witness for the partition invariant at `N = 2`, `S = 16`: a client takes a
slot, writes into it and frees it; both slots are then back in the Free queue and
`allocated()` is 0. -/
theorem disciplined_clients_partition_witness :
    Disciplined (mkPool 2 16) [] [Op.alloc, Op.write 4096 0, Op.free 4096]
    ∧ AllReturnsOk ([Op.alloc, Op.write 4096 0, Op.free 4096].take 3)
        (run (mkPool 2 16) ([Op.alloc, Op.write 4096 0, Op.free 4096].take 3)).1
    ∧ allocated (run (mkPool 2 16) ([Op.alloc, Op.write 4096 0, Op.free 4096].take 3)).2
        = (heldAfter (mkPool 2 16) [] ([Op.alloc, Op.write 4096 0, Op.free 4096].take 3)
          ).length
    ∧ heldAfter (mkPool 2 16) [] [Op.alloc, Op.write 4096 0, Op.free 4096] = []
    ∧ cbuffer_elems (run (mkPool 2 16) [Op.alloc, Op.write 4096 0, Op.free 4096]).2.free_list
        = [4112, 4096] :=
  have hd : Disciplined (mkPool 2 16) [] [Op.alloc, Op.write 4096 0, Op.free 4096] :=
    ⟨trivial, trivial, ⟨by decide, by decide⟩, trivial⟩
  ⟨hd,
   (disciplined_clients_partition env0 heap0 2 16 (mkPool 2 16) (by decide) (by decide)
     (by decide) rfl rfl (by decide) (by decide) (ctor_eq_mkPool 2 16) _ hd 3).1,
   (disciplined_clients_partition env0 heap0 2 16 (mkPool 2 16) (by decide) (by decide)
     (by decide) rfl rfl (by decide) (by decide) (ctor_eq_mkPool 2 16) _ hd 3).2.2.2,
   by decide, by decide⟩

end FileMemPool
